import Mathlib

/-!
Verification of the Generation-Validation-Render pipeline of the GenAI_MANIM
repository against its natural-language specification.

The Python source (under `app/`) is shallowly embedded: JSON documents become
the inductive type `JVal`, the jsonschema Draft-7 checks performed by the six
IR validators become executable Lean functions producing the same error-message
lists, the retry loops of `llm.py` and `main.py` become structurally recursive
functions parameterised by an oracle for the external generative/render
collaborators, and the regex-based sanitization of `llm_codegen.py` becomes a
family of character-list scanners implementing the exact (deterministic
fragments of the) regular expressions used in the source.
-/

namespace GenaiManim

/-- JSON values as produced by Python's `json.loads`.  Python distinguishes
`int`, `float` and `bool` (all of which matter to jsonschema type checks),
so the embedding does too; floats are modelled as rationals. -/
inductive JVal where
  | null : JVal
  | bool (b : Bool) : JVal
  | int (n : ℤ) : JVal
  | float (q : ℚ) : JVal
  | str (s : String) : JVal
  | arr (xs : List JVal) : JVal
  | obj (fields : List (String × JVal)) : JVal

mutual

/-- Python `==` on JSON values (numbers compare across int/float, dicts are
modelled as ordered field lists; the documents relevant here never rely on
key-order-insensitive dict equality). -/
def JVal.beq : JVal → JVal → Bool
  | .null, .null => true
  | .bool a, .bool b => a == b
  | .int a, .int b => a == b
  | .float a, .float b => a == b
  | .int a, .float b => (a : ℚ) == b
  | .float a, .int b => a == (b : ℚ)
  | .bool a, .int b => (if a then (1 : ℤ) else 0) == b
  | .int a, .bool b => a == (if b then (1 : ℤ) else 0)
  | .bool a, .float b => (if a then mkRat 1 1 else mkRat 0 1) == b
  | .float a, .bool b => a == (if b then mkRat 1 1 else mkRat 0 1)
  | .str a, .str b => a == b
  | .arr a, .arr b => JVal.beqList a b
  | .obj a, .obj b => JVal.beqObj a b
  | _, _ => false

def JVal.beqList : List JVal → List JVal → Bool
  | [], [] => true
  | x :: xs, y :: ys => JVal.beq x y && JVal.beqList xs ys
  | _, _ => false

def JVal.beqObj : List (String × JVal) → List (String × JVal) → Bool
  | [], [] => true
  | (k, x) :: xs, (l, y) :: ys => k == l && JVal.beq x y && JVal.beqObj xs ys
  | _, _ => false

end

/-- Python `d.get(k)` on a dict: first binding of the key, if any. -/
def jlookup : List (String × JVal) → String → Option JVal
  | [], _ => none
  | (k, v) :: rest, key => if k = key then some v else jlookup rest key

/-- Python `k in d` for a dict. -/
def jhasKey (fields : List (String × JVal)) (key : String) : Bool :=
  (jlookup fields key).isSome

/-- `doc.get(key, default)` where `doc` may be any JSON value (Python would
raise `AttributeError` on non-dicts; the callers modelled here only reach
this with dicts). -/
def JVal.getD (v : JVal) (key : String) (dflt : JVal) : JVal :=
  match v with
  | .obj fields => (jlookup fields key).getD dflt
  | _ => dflt

/-- jsonschema's draft-7 `string` type check. -/
def JVal.isStr : JVal → Bool
  | .str _ => true
  | _ => false

/-- jsonschema's draft-7 `number` type check (excludes `bool`). -/
def JVal.isNum : JVal → Bool
  | .int _ => true
  | .float _ => true
  | _ => false

/-- jsonschema's draft-7 `integer` type check (Python `int`, excluding `bool`;
a float with integral value does not count). -/
def JVal.isInt : JVal → Bool
  | .int _ => true
  | _ => false

def JVal.isArr : JVal → Bool
  | .arr _ => true
  | _ => false

def JVal.isObj : JVal → Bool
  | .obj _ => true
  | _ => false

def JVal.isBool : JVal → Bool
  | .bool _ => true
  | _ => false

def JVal.isNull : JVal → Bool
  | .null => true
  | _ => false

/-- Numeric value of an int/float JSON value (0 otherwise; callers guard). -/
def JVal.toNumQ : JVal → ℚ
  | .int n => mkRat n 1
  | .float q => q
  | _ => mkRat 0 1

/-- `a < b` on rationals, as the executable core comparison. -/
def qltB (a b : ℚ) : Bool := Rat.blt a b

end GenaiManim

namespace GenaiManim

/-! ### `app/patterns.py` -/

/-- `PatternType` enum from `app/patterns.py`. -/
inductive PatternType where
  | GRID
  | SEQUENCE
  | FLOW
  | GRAPH
  | SEQ_ATTENTION
deriving DecidableEq, Repr

/-- `DOMAIN_TO_PATTERN` from `app/patterns.py`. -/
def DOMAIN_TO_PATTERN : List (String × PatternType) :=
  [("cnn_param", .GRID),
   ("sorting", .SEQUENCE),
   ("bubble_sort", .SEQUENCE),
   ("selection_sort", .SEQUENCE),
   ("transformer", .SEQ_ATTENTION),
   ("transformer_attn", .SEQ_ATTENTION),
   ("attention", .SEQ_ATTENTION),
   ("cache", .FLOW),
   ("math", .FLOW),
   ("pipeline", .FLOW),
   ("hash_table", .GRID),
   ("graph_traversal", .GRAPH),
   ("shortest_path", .GRAPH),
   ("graph", .GRAPH),
   ("binary_tree", .GRAPH),
   ("tree", .GRAPH),
   ("dynamic_programming", .GRID)]

/-- `VALID_PATTERNS` from `app/patterns.py`. -/
def VALID_PATTERNS : List (String × PatternType) :=
  [("grid", .GRID),
   ("sequence", .SEQUENCE),
   ("seq_attention", .SEQ_ATTENTION),
   ("flow", .FLOW),
   ("graph", .GRAPH)]

/-- Assoc-list lookup mirroring a Python dict access guarded by `in`. -/
def plookup : List (String × PatternType) → String → Option PatternType
  | [], _ => none
  | (k, v) :: rest, key => if k = key then some v else plookup rest key

/-- Python `str.lower()` (ASCII case folding suffices for the inputs here). -/
def strLower (s : String) : String := (s.toList.map Char.toLower).asString

/-- `resolve_pattern` from `app/patterns.py`. -/
def resolve_pattern (domain : String) (llm_pattern : String) : PatternType :=
  match plookup DOMAIN_TO_PATTERN domain with
  | some pt => pt
  | none =>
    match plookup VALID_PATTERNS (strLower llm_pattern) with
    | some pt => pt
    | none => .FLOW

end GenaiManim

namespace GenaiManim

/-! ### jsonschema (Draft 7) machinery used by `app/schema.py`

The schemas in `app/schema.py` are fixed dict constants; each is embedded
below as a dedicated checker whose structure mirrors the schema dict, built
from helpers that reproduce the `jsonschema` library's per-keyword semantics
and error-message formats (messages matter: several validators filter errors
by the substrings "required"/"type"). -/

/-- Python single-quoted repr of a plain string (the strings appearing in the
documents considered here contain no quotes or backslashes). -/
def pyQuote (s : String) : String := "\x27" ++ s ++ "\x27"

/-- Code-point-lexicographic `a < b` on strings (Python string comparison). -/
def charListLtB : List Char → List Char → Bool
  | [], [] => false
  | [], _ :: _ => true
  | _ :: _, [] => false
  | x :: xs, y :: ys =>
    if decide (x.toNat < y.toNat) then true
    else if decide (y.toNat < x.toNat) then false
    else charListLtB xs ys

def strLtB (a b : String) : Bool := charListLtB a.toList b.toList

/-- Stable insertion into an ascending list (Python `sorted`). -/
def pyInsertStr (x : String) : List String → List String
  | [] => [x]
  | y :: ys => if strLtB y x then y :: pyInsertStr x ys else x :: y :: ys

def pySortedStr : List String → List String
  | [] => []
  | x :: xs => pyInsertStr x (pySortedStr xs)

/-- First-occurrence deduplication (the set built by jsonschema before its
sorted rendering). -/
def dedupKeys (seen : List String) : List String → List String
  | [] => []
  | x :: xs =>
    if seen.contains x then dedupKeys seen xs
    else x :: dedupKeys (x :: seen) xs

/-- Decimal digits of the fraction `r / d` (fuel-bounded long division;
used only inside Python float `repr`s, whose values here have terminating
decimal expansions). -/
def decDigits : ℕ → ℕ → ℕ → String
  | 0, _, _ => ""
  | _, 0, _ => ""
  | fuel + 1, r, d =>
    let r10 := r * 10
    toString (r10 / d) ++ decDigits fuel (r10 % d) d

/-- Python `repr` of a float value (modelled as a rational). -/
def pyFloatRepr (q : ℚ) : String :=
  let sign := if decide (q.num < 0) then "-" else ""
  let n := q.num.natAbs
  let d := q.den
  sign ++ toString (n / d) ++ "." ++
    (if n % d = 0 then "0" else decDigits 17 (n % d) d)

mutual

/-- Python `repr` of a parsed-JSON value. -/
def pyRepr : JVal → String
  | .null => "None"
  | .bool true => "True"
  | .bool false => "False"
  | .int n => toString n
  | .float q => pyFloatRepr q
  | .str s => pyQuote s
  | .arr xs => "[" ++ pyReprList xs ++ "]"
  | .obj fs => "\x7b" ++ pyReprFields fs ++ "\x7d"

def pyReprList : List JVal → String
  | [] => ""
  | [x] => pyRepr x
  | x :: xs => pyRepr x ++ ", " ++ pyReprList xs

def pyReprFields : List (String × JVal) → String
  | [] => ""
  | [(k, v)] => pyQuote k ++ ": " ++ pyRepr v
  | (k, v) :: fs => pyQuote k ++ ": " ++ pyRepr v ++ ", " ++ pyReprFields fs

end

/-- Does a value satisfy a draft-7 primitive type name? -/
def typeMatches (ty : String) (v : JVal) : Bool :=
  match ty with
  | "object" => v.isObj
  | "array" => v.isArr
  | "string" => v.isStr
  | "number" => v.isNum
  | "integer" => v.isInt
  | "boolean" => v.isBool
  | "null" => v.isNull
  | _ => false

/-- `type` keyword: one error if the value matches none of the listed types.
Message format: `repr(instance) is not of type 'a', 'b'`. -/
def checkType (tys : List String) (v : JVal) : List String :=
  if tys.any (typeMatches · v) then []
  else [pyRepr v ++ " is not of type " ++ String.intercalate ", " (tys.map pyQuote)]

/-- `required` keyword (skipped on non-objects by jsonschema; callers only
invoke it on object field lists): one error per missing property. -/
def checkRequired (props : List String) (fields : List (String × JVal)) : List String :=
  props.filterMap fun p =>
    if jhasKey fields p then none else some (pyQuote p ++ " is a required property")

/-- `enum` keyword. -/
def checkEnum (vals : List JVal) (v : JVal) : List String :=
  if vals.any (JVal.beq v) then []
  else [pyRepr v ++ " is not one of " ++ pyRepr (.arr vals)]

/-- `const` keyword. -/
def checkConst (c : JVal) (v : JVal) : List String :=
  if JVal.beq v c then [] else [pyRepr c ++ " was expected"]

/-- `minimum` keyword (skips non-numbers). -/
def checkMinimum (m : JVal) (v : JVal) : List String :=
  if v.isNum && qltB v.toNumQ m.toNumQ then
    [pyRepr v ++ " is less than the minimum of " ++ pyRepr m]
  else []

/-- `maximum` keyword (skips non-numbers). -/
def checkMaximum (m : JVal) (v : JVal) : List String :=
  if v.isNum && qltB m.toNumQ v.toNumQ then
    [pyRepr v ++ " is greater than the maximum of " ++ pyRepr m]
  else []

/-- `minItems` keyword (skips non-arrays). -/
def checkMinItems (n : ℕ) (v : JVal) : List String :=
  match v with
  | .arr xs => if xs.length < n then [pyRepr v ++ " is too short"] else []
  | _ => []

/-- `maxItems` keyword (skips non-arrays). -/
def checkMaxItems (n : ℕ) (v : JVal) : List String :=
  match v with
  | .arr xs => if n < xs.length then [pyRepr v ++ " is too long"] else []
  | _ => []

/-- `items` keyword with a single subschema: concatenated element errors. -/
def checkItems (sub : JVal → List String) (v : JVal) : List String :=
  match v with
  | .arr xs => xs.flatMap sub
  | _ => []

/-- Errors of a property's subschema, when the property is present. -/
def propErrs (fields : List (String × JVal)) (name : String)
    (sub : JVal → List String) : List String :=
  match jlookup fields name with
  | some v => sub v
  | none => []

/-- `additionalProperties: false`: one combined error naming the unexpected
keys (sorted lexicographically, as jsonschema sorts them by `str`). -/
def checkAddPropsFalse (allowed : List String)
    (fields : List (String × JVal)) : List String :=
  let extras := dedupKeys [] ((fields.map Prod.fst).filter (fun k => ¬ allowed.contains k))
  let extras := pySortedStr extras
  if extras.isEmpty then []
  else
    ["Additional properties are not allowed (" ++
      String.intercalate ", " (extras.map pyQuote) ++
      (if extras.length = 1 then " was" else " were") ++ " unexpected)"]

/-- `oneOf` keyword: error when no subschema (or more than one) matches.
(The `oneOf` schemas in this codebase are pairwise disjoint, so the
more-than-one branch is unreachable; its exact jsonschema message would
embed the schema reprs, which is abbreviated here.) -/
def checkOneOf (subs : List (JVal → List String)) (v : JVal) : List String :=
  let nMatch := (subs.filter (fun sub => (sub v).isEmpty)).length
  if nMatch = 1 then []
  else if nMatch = 0 then
    [pyRepr v ++ " is not valid under any of the given schemas"]
  else
    [pyRepr v ++ " is valid under each of the given schemas"]

end GenaiManim

namespace GenaiManim

/-! ### `JSON_IR_SCHEMA` and `schema_errors` / `invariants_errors` -/

/-- An error with its jsonschema `absolute_path` (list of property names and
array indices, as Python values). -/
abbrev PathedErr := String × List JVal

/-- Tag a list of messages as occurring at the current location. -/
def atHere (ms : List String) : List PathedErr := ms.map (·, [])

/-- Errors of a property's subschema, with the property name prefixed to
each error path. -/
def propErrsP (fields : List (String × JVal)) (name : String)
    (sub : JVal → List PathedErr) : List PathedErr :=
  match jlookup fields name with
  | some v => (sub v).map fun (m, p) => (m, .str name :: p)
  | none => []

/-- `items` keyword with paths: element index prefixed to each error path. -/
def checkItemsP (sub : JVal → List PathedErr) (v : JVal) : List PathedErr :=
  match v with
  | .arr xs => (xs.enum).flatMap fun (i, x) =>
      (sub x).map fun (m, p) => (m, .int (i : ℤ) :: p)
  | _ => []

/-- Item schema of `JSON_IR_SCHEMA.properties.components.items`. -/
def base_component_item_errors (v : JVal) : List PathedErr :=
  atHere (checkType ["object"] v) ++
  match v with
  | .obj fs =>
    atHere (checkRequired ["id"] fs) ++
    propErrsP fs "id" (fun w => atHere (checkType ["string"] w)) ++
    propErrsP fs "pos" (fun w =>
      atHere (checkType ["array"] w ++ checkMinItems 3 w ++ checkMaxItems 3 w) ++
      checkItemsP (fun x => atHere (checkType ["number"] x)) w) ++
    propErrsP fs "label" (fun w => atHere (checkType ["string"] w)) ++
    propErrsP fs "style" (fun w => atHere (checkType ["object"] w))
  | _ => []

/-- Item schema of `JSON_IR_SCHEMA.properties.events.items`. -/
def base_event_item_errors (v : JVal) : List PathedErr :=
  atHere (checkType ["object"] v) ++
  match v with
  | .obj fs =>
    atHere (checkRequired ["t", "op"] fs) ++
    propErrsP fs "t" (fun w => atHere (checkType ["number"] w)) ++
    propErrsP fs "op" (fun w => atHere (checkType ["string"] w)) ++
    propErrsP fs "from" (fun w => atHere (checkType ["string"] w)) ++
    propErrsP fs "to" (fun w => atHere (checkType ["string"] w)) ++
    propErrsP fs "target" (fun w => atHere (checkType ["string"] w)) ++
    propErrsP fs "item" (fun w => atHere (checkType ["string"] w))
  | _ => []

/-- `JSON_IR_SCHEMA` from `app/schema.py`, as a checker over instances
(`data` has the empty schema and `additionalProperties` is `True`, so
neither contributes checks). -/
def json_ir_schema_errors (doc : JVal) : List PathedErr :=
  atHere (checkType ["object"] doc) ++
  match doc with
  | .obj fs =>
    atHere (checkRequired ["components", "events"] fs) ++
    propErrsP fs "components" (fun v =>
      atHere (checkType ["array"] v) ++ checkItemsP base_component_item_errors v) ++
    propErrsP fs "events" (fun v =>
      atHere (checkType ["array"] v) ++ checkItemsP base_event_item_errors v) ++
    propErrsP fs "metadata" (fun v => atHere (checkType ["object"] v))
  | _ => []

/-- `schema_errors` from `app/schema.py`:
`[f"{e.message} at {list(e.absolute_path)}" for e in v.iter_errors(doc)]`. -/
def schema_errors (doc : JVal) : List String :=
  (json_ir_schema_errors doc).map fun (m, p) => m ++ " at " ++ pyRepr (.arr p)

/-- Python exceptions that the embedded fragments can raise. -/
inductive PyExc where
  | keyError (k : String)
  | typeError
  | attributeError
  | valueError (msg : String)
deriving DecidableEq, Repr

deriving instance DecidableEq for Except

/-- Python `str()` of a parsed-JSON value (differs from `repr` only on
strings, which print unquoted). -/
def pyStr : JVal → String
  | .str s => s
  | v => pyRepr v

/-- Python truthiness of a parsed-JSON value. -/
def jTruthy : JVal → Bool
  | .null => false
  | .bool b => b
  | .int n => n ≠ 0
  | .float q => q ≠ 0
  | .str s => s ≠ ""
  | .arr xs => ¬ xs.isEmpty
  | .obj fs => ¬ fs.isEmpty

/-- Python `len()` (sized values only; other values raise `TypeError`). -/
def pyLen : JVal → Except PyExc ℕ
  | .str s => .ok s.length
  | .arr xs => .ok xs.length
  | .obj fs => .ok fs.length
  | _ => .error .typeError

/-- Python numeric coercion used by comparison operators (`bool` compares
as 0/1). -/
def pyNumOf : JVal → Option ℚ
  | .int n => some (mkRat n 1)
  | .float q => some q
  | .bool b => some (if b then mkRat 1 1 else mkRat 0 1)
  | _ => none

/-- Python `a > b` on parsed-JSON scalars: numbers (and bools) compare
numerically, strings lexicographically; other combinations raise
`TypeError`. -/
def pyGt (a b : JVal) : Except PyExc Bool :=
  match pyNumOf a, pyNumOf b with
  | some x, some y => .ok (qltB y x)
  | _, _ =>
    match a, b with
    | .str x, .str y => .ok (strLtB y x)
    | _, _ => .error .typeError

/-- `e["t"]` on an event: `KeyError` when missing, `TypeError` when the
event is not a dict. -/
def getT (e : JVal) : Except PyExc JVal :=
  match e with
  | .obj fs =>
    match jlookup fs "t" with
    | some v => .ok v
    | none => .error (.keyError "t")
  | _ => .error .typeError

/-- The lazy scan `any(evts[i]["t"] > evts[i+1]["t"] for i in ...)` from
`invariants_errors`: stops at the first `True`; raises on a missing `"t"`
key or an incomparable pair encountered before that. -/
def tDescendScan : List JVal → Except PyExc Bool
  | e1 :: e2 :: rest => do
    let t1 ← getT e1
    let t2 ← getT e2
    let gt ← pyGt t1 t2
    if gt then return true else tDescendScan (e2 :: rest)
  | _ => return false

/-- The `comp_ids` set comprehension of `invariants_errors`
(`{c["id"] for c in doc.get("components", []) if "id" in c}`); modelled as
the list of `id` values of the dict components (non-dict components raise
`TypeError` in Python and are modelled as such). -/
def collectCompIds : List JVal → Except PyExc (List JVal)
  | [] => .ok []
  | .obj fs :: rest => do
    let ids ← collectCompIds rest
    match jlookup fs "id" with
    | some v => return v :: ids
    | none => return ids
  | _ :: _ => .error .typeError

/-- The reference-checking loop of `invariants_errors`. -/
def refErrors (compIds : List JVal) : List (ℕ × JVal) → Except PyExc (List String)
  | [] => .ok []
  | (i, e) :: rest => do
    let here ← match e with
      | .obj fs =>
        Except.ok <| ["from", "to", "target"].flatMap fun k =>
          match jlookup fs k with
          | some v =>
            if compIds.any (JVal.beq · v) then []
            else ["event[" ++ toString i ++ "] references undefined " ++
                  pyQuote k ++ ": " ++ pyStr v]
          | none => []
      | _ => Except.error .typeError
    let restErrs ← refErrors compIds rest
    return here ++ restErrs

/-- The element list of a `doc.get(key, [])` that is then iterated
(non-list values raise `TypeError` when iterated/indexed in the ways
`invariants_errors` does; modelled uniformly as `TypeError`). -/
def getListField (doc : JVal) (key : String) : Except PyExc (List JVal) :=
  match doc.getD key (.arr []) with
  | .arr xs => .ok xs
  | _ => .error .typeError

/-- `invariants_errors` from `app/schema.py`. -/
def invariants_errors (doc : JVal) : Except PyExc (List String) := do
  let comps ← getListField doc "components"
  let compIds ← collectCompIds comps
  let evts ← getListField doc "events"
  let descending ← tDescendScan evts
  let tErrs := if descending then ["events.t must be non-decreasing order"] else []
  let rErrs ← refErrors compIds evts.enum
  return tErrs ++ rErrs

/-- `validate_ir` from `app/llm.py`:
`schema_errors(doc) + invariants_errors(doc)`. -/
def validate_ir (doc : JVal) : Except PyExc (List String) := do
  let iErrs ← invariants_errors doc
  return schema_errors doc ++ iErrs

end GenaiManim

namespace GenaiManim

/-! ### The six `validate_*_ir` functions of `app/schema.py` -/

/-- Case-insensitive test whether `pat` occurs in `s`
(Python `pat in s.lower()`). -/
def containsSubAux (pat : List Char) : List Char → Bool
  | [] => pat.isEmpty
  | s@(_ :: rest) => pat.isPrefixOf s || containsSubAux pat rest

def strContainsSub (s pat : String) : Bool :=
  containsSubAux pat.toList s.toList

/-- `ATTENTION_IR_SCHEMA` from `app/schema.py`, as a checker (messages in
`iter_errors` order). -/
def attention_schema_errors (doc : JVal) : List String :=
  checkType ["object"] doc ++
  match doc with
  | .obj fs =>
    checkRequired ["pattern_type", "tokens", "weights", "query_index"] fs ++
    propErrs fs "pattern_type" (fun v =>
      checkType ["string"] v ++ checkConst (.str "seq_attention") v) ++
    propErrs fs "raw_text" (checkType ["string"]) ++
    propErrs fs "tokens" (fun v =>
      checkType ["array"] v ++ checkItems (checkType ["string"]) v ++
      checkMinItems 1 v) ++
    propErrs fs "weights" (fun v =>
      checkType ["array"] v ++ checkMinItems 1 v ++
      checkItems (checkOneOf
        [checkType ["number"],
         fun w => checkType ["array"] w ++ checkMinItems 1 w ++
                  checkItems (checkType ["number"]) w]) v) ++
    propErrs fs "query_index" (fun v =>
      checkType ["integer"] v ++ checkMinimum (.int 0) v) ++
    propErrs fs "next_token" (fun v =>
      checkType ["object"] v ++
      (match v with
       | .obj nfs =>
         checkRequired ["candidates", "probs"] nfs ++
         propErrs nfs "candidates" (fun w =>
           checkType ["array"] w ++ checkItems (checkType ["string"]) w ++
           checkMinItems 1 w) ++
         propErrs nfs "probs" (fun w =>
           checkType ["array"] w ++ checkItems (checkType ["number"]) w ++
           checkMinItems 1 w) ++
         checkAddPropsFalse ["candidates", "probs"] nfs
       | _ => [])) ++
    checkAddPropsFalse
      ["pattern_type", "raw_text", "tokens", "weights", "query_index",
       "next_token"] fs
  | _ => []

/-- Python `isinstance(x, list)`. -/
def jIsList : JVal → Bool
  | .arr _ => true
  | _ => false

/-- Python `isinstance(x, int)` (true for `bool` as well). -/
def jIsInstInt : JVal → Bool
  | .int _ => true
  | .bool _ => true
  | _ => false

/-- Integer value used when `isinstance(qi, int)` held. -/
def jIntVal : JVal → ℤ
  | .int n => n
  | .bool b => if b then 1 else 0
  | _ => 0

/-- The lazy `any(len(row) != row_len for row in weights)` scan of
`validate_attention_ir` (raises `TypeError` on an unsized row reached
before the first mismatch). -/
def rowLenScan (rowLen : ℕ) : List JVal → Except PyExc Bool
  | [] => .ok false
  | row :: rest => do
    let l ← pyLen row
    if l ≠ rowLen then return true else rowLenScan rowLen rest

/-- `validate_attention_ir` from `app/schema.py`.  Unlike the other variant
validators it neither filters the schema errors nor returns early on them,
and its cross-field layer can raise on ill-typed fields (e.g. `len()` of a
non-sized `tokens`). -/
def validate_attention_ir (doc : JVal) : Except PyExc (List String) := do
  let schemaErrs := attention_schema_errors doc
  let tokens := doc.getD "tokens" (.arr [])
  let weights := doc.getD "weights" (.arr [])
  let weightErrs ← (do
    match weights with
    | .arr ws =>
      if ws.isEmpty then return ([] : List String)
      else
        match ws.head? with
        | some first =>
          if jIsList first then do
            let nW := ws.length
            let nT ← pyLen tokens
            let e1 := if nW ≠ nT then
              ["len(weights) must equal len(tokens) for 2D weights"] else []
            let rowLen ← pyLen first
            let mismatch ← rowLenScan rowLen ws
            let e2 := if mismatch then
              ["all rows in weights must have the same length"] else []
            return e1 ++ e2
          else do
            let nT ← pyLen tokens
            let e1 := if ws.length ≠ nT then
              ["len(weights) must equal len(tokens) for 1D weights"] else []
            return e1
        | none => return []
    | _ => return [])
  let qi := doc.getD "query_index" .null
  let qiErrs ← (do
    if jIsInstInt qi then
      if jIntVal qi < 0 then
        return ["query_index out of range"]
      else do
        let nT ← pyLen tokens
        if jIntVal qi < (nT : ℤ) then return ([] : List String)
        else return ["query_index out of range"]
    else return [])
  let nt := doc.getD "next_token" .null
  let ntErrs ← (do
    match nt with
    | .null => return ([] : List String)
    | .obj nfs =>
      let cands := (jlookup nfs "candidates").getD .null
      let probs := (jlookup nfs "probs").getD .null
      if ¬ (jIsList cands) || ¬ (jIsList probs) then
        return ["next_token.candidates and probs must be lists"]
      else do
        let lc ← pyLen cands
        let lp ← pyLen probs
        if lc ≠ lp then
          return ["next_token.candidates and probs must have the same length"]
        else return []
    | _ => Except.error .attributeError)
  return schemaErrs ++ weightErrs ++ qiErrs ++ ntErrs

/-- The `bounds` subschema shared by the grid and sequence schemas. -/
def bounds_schema_errors (v : JVal) : List String :=
  checkType ["object"] v ++
  match v with
  | .obj bfs =>
    checkRequired ["xmin", "xmax", "ymin", "ymax"] bfs ++
    propErrs bfs "xmin" (checkType ["number"]) ++
    propErrs bfs "xmax" (checkType ["number"]) ++
    propErrs bfs "ymin" (checkType ["number"]) ++
    propErrs bfs "ymax" (checkType ["number"]) ++
    checkAddPropsFalse ["xmin", "xmax", "ymin", "ymax"] bfs
  | _ => []

/-- `oneOf [string, array of strings]` used by the action `target`/`from`/`to`
fields. -/
def strOrStrArray (v : JVal) : List String :=
  checkOneOf
    [checkType ["string"],
     fun w => checkType ["array"] w ++ checkItems (checkType ["string"]) w] v

/-- `GRID_IR_SCHEMA` from `app/schema.py`, as a checker. -/
def grid_schema_errors (doc : JVal) : List String :=
  checkType ["object"] doc ++
  match doc with
  | .obj fs =>
    checkRequired ["pattern", "bounds", "layout", "components", "actions"] fs ++
    propErrs fs "pattern" (fun v =>
      checkType ["string"] v ++ checkConst (.str "grid") v) ++
    propErrs fs "bounds" bounds_schema_errors ++
    propErrs fs "layout" (fun v =>
      checkType ["object"] v ++
      match v with
      | .obj lfs =>
        checkRequired ["n_rows", "n_cols", "cell_size"] lfs ++
        propErrs lfs "n_rows" (fun w =>
          checkType ["integer"] w ++ checkMinimum (.int 1) w) ++
        propErrs lfs "n_cols" (fun w =>
          checkType ["integer"] w ++ checkMinimum (.int 1) w) ++
        propErrs lfs "cell_size" (fun w =>
          checkType ["number"] w ++ checkMinimum (.float (mkRat 1 10)) w ++
          checkMaximum (.float (mkRat 1 1)) w) ++
        propErrs lfs "cell_gap" (fun w =>
          checkType ["number"] w ++ checkMinimum (.int 0) w ++
          checkMaximum (.float (mkRat 1 2)) w) ++
        propErrs lfs "start_x" (checkType ["number"]) ++
        propErrs lfs "start_y" (checkType ["number"]) ++
        checkAddPropsFalse
          ["n_rows", "n_cols", "cell_size", "cell_gap", "start_x", "start_y"] lfs
      | _ => []) ++
    propErrs fs "components" (fun v =>
      checkType ["array"] v ++
      checkItems (fun c =>
        checkType ["object"] c ++
        match c with
        | .obj cfs =>
          checkRequired ["id", "type", "grid_pos"] cfs ++
          propErrs cfs "id" (checkType ["string"]) ++
          propErrs cfs "type" (fun w =>
            checkType ["string"] w ++
            checkEnum [.str "cell", .str "label"] w) ++
          propErrs cfs "grid_pos" (fun w =>
            checkType ["array"] w ++ checkMinItems 2 w ++ checkMaxItems 2 w ++
            checkItems (checkType ["integer"]) w) ++
          propErrs cfs "value" (checkType ["string", "number"]) ++
          propErrs cfs "color" (checkType ["string"])
        | _ => []) v) ++
    propErrs fs "actions" (fun v =>
      checkType ["array"] v ++
      checkItems (fun a =>
        checkType ["object"] a ++
        match a with
        | .obj afs =>
          checkRequired ["t", "type"] afs ++
          propErrs afs "t" (fun w =>
            checkType ["number"] w ++ checkMinimum (.int 0) w) ++
          propErrs afs "type" (checkType ["string"]) ++
          propErrs afs "target" strOrStrArray ++
          propErrs afs "color" (checkType ["string"]) ++
          propErrs afs "value" (checkType ["string", "number"]) ++
          propErrs afs "duration" (fun w =>
            checkType ["number"] w ++ checkMinimum (.float (mkRat 1 10)) w)
        | _ => []) v) ++
    propErrs fs "metadata" (checkType ["object"]) ++
    checkAddPropsFalse
      ["pattern", "bounds", "layout", "components", "actions", "metadata"] fs
  | _ => []

end GenaiManim

namespace GenaiManim

/-- `SEQUENCE_IR_SCHEMA` from `app/schema.py`, as a checker. -/
def sequence_schema_errors (doc : JVal) : List String :=
  checkType ["object"] doc ++
  match doc with
  | .obj fs =>
    checkRequired ["pattern", "bounds", "layout", "components", "actions"] fs ++
    propErrs fs "pattern" (fun v =>
      checkType ["string"] v ++ checkConst (.str "sequence") v) ++
    propErrs fs "bounds" bounds_schema_errors ++
    propErrs fs "layout" (fun v =>
      checkType ["object"] v ++
      match v with
      | .obj lfs =>
        checkRequired ["n_items", "item_size"] lfs ++
        propErrs lfs "n_items" (fun w =>
          checkType ["integer"] w ++ checkMinimum (.int 1) w) ++
        propErrs lfs "item_size" (fun w =>
          checkType ["number"] w ++ checkMinimum (.float (mkRat 3 10)) w ++
          checkMaximum (.float (mkRat 1 1)) w) ++
        propErrs lfs "item_gap" (fun w =>
          checkType ["number"] w ++ checkMinimum (.float (mkRat 1 10)) w ++
          checkMaximum (.float (mkRat 1 2)) w) ++
        propErrs lfs "baseline_y" (checkType ["number"]) ++
        propErrs lfs "start_x" (checkType ["number"]) ++
        checkAddPropsFalse
          ["n_items", "item_size", "item_gap", "baseline_y", "start_x"] lfs
      | _ => []) ++
    propErrs fs "components" (fun v =>
      checkType ["array"] v ++
      checkItems (fun c =>
        checkType ["object"] c ++
        match c with
        | .obj cfs =>
          checkRequired ["id", "type", "seq_pos"] cfs ++
          propErrs cfs "id" (checkType ["string"]) ++
          propErrs cfs "type" (fun w =>
            checkType ["string"] w ++
            checkEnum [.str "circle", .str "square", .str "label"] w) ++
          propErrs cfs "seq_pos" (fun w =>
            checkType ["integer"] w ++ checkMinimum (.int 0) w) ++
          propErrs cfs "value" (checkType ["string", "number"]) ++
          propErrs cfs "radius" (fun w =>
            checkType ["number"] w ++ checkMinimum (.float (mkRat 1 5)) w) ++
          propErrs cfs "color" (checkType ["string"])
        | _ => []) v) ++
    propErrs fs "actions" (fun v =>
      checkType ["array"] v ++
      checkItems (fun a =>
        checkType ["object"] a ++
        match a with
        | .obj afs =>
          checkRequired ["t", "type"] afs ++
          propErrs afs "t" (fun w =>
            checkType ["number"] w ++ checkMinimum (.int 0) w) ++
          propErrs afs "type" (checkType ["string"]) ++
          propErrs afs "from" strOrStrArray ++
          propErrs afs "to" strOrStrArray ++
          propErrs afs "target" strOrStrArray ++
          propErrs afs "duration" (fun w =>
            checkType ["number"] w ++ checkMinimum (.float (mkRat 1 10)) w) ++
          propErrs afs "color" (checkType ["string"])
        | _ => []) v) ++
    propErrs fs "metadata" (checkType ["object"]) ++
    checkAddPropsFalse
      ["pattern", "bounds", "layout", "components", "actions", "metadata"] fs
  | _ => []

/-- `FLOW_IR_SCHEMA` from `app/schema.py`, as a checker (top-level
`additionalProperties` is `True`; `bounds` has no `required`; `layout` is a
`oneOf` of a dict format and a bare array). -/
def flow_schema_errors (doc : JVal) : List String :=
  checkType ["object"] doc ++
  match doc with
  | .obj fs =>
    checkRequired ["pattern", "bounds", "layout", "components", "actions"] fs ++
    propErrs fs "pattern" (fun v =>
      checkType ["string"] v ++ checkEnum [.str "flow"] v) ++
    propErrs fs "bounds" (fun v =>
      checkType ["object"] v ++
      match v with
      | .obj bfs =>
        propErrs bfs "xmin" (checkType ["number"]) ++
        propErrs bfs "xmax" (checkType ["number"]) ++
        propErrs bfs "ymin" (checkType ["number"]) ++
        propErrs bfs "ymax" (checkType ["number"]) ++
        checkAddPropsFalse ["xmin", "xmax", "ymin", "ymax"] bfs
      | _ => []) ++
    propErrs fs "layout" (checkOneOf
      [fun v =>
        checkType ["object"] v ++
        (match v with
         | .obj lfs =>
           propErrs lfs "stage_width" (fun w =>
             checkType ["number"] w ++ checkMinimum (.float (mkRat 1 2)) w ++
             checkMaximum (.float (mkRat 2 1)) w) ++
           propErrs lfs "stage_height" (fun w =>
             checkType ["number"] w ++ checkMinimum (.float (mkRat 1 2)) w ++
             checkMaximum (.float (mkRat 2 1)) w) ++
           propErrs lfs "spacing" (fun w =>
             checkType ["number"] w ++ checkMinimum (.float (mkRat 1 10)) w ++
             checkMaximum (.float (mkRat 1 1)) w) ++
           propErrs lfs "start_x" (checkType ["number"]) ++
           propErrs lfs "start_y" (checkType ["number"]) ++
           checkAddPropsFalse
             ["stage_width", "stage_height", "spacing", "start_x", "start_y"] lfs
         | _ => []),
       checkType ["array"]]) ++
    propErrs fs "components" (fun v =>
      checkType ["array"] v ++
      checkItems (fun c =>
        checkType ["object"] c ++
        match c with
        | .obj cfs =>
          checkRequired ["id"] cfs ++
          propErrs cfs "id" (checkType ["string"]) ++
          propErrs cfs "type" (fun w =>
            checkType ["string"] w ++
            checkEnum [.str "stage", .str "block", .str "connector"] w) ++
          propErrs cfs "label" (checkType ["string"]) ++
          propErrs cfs "color" (checkType ["string"]) ++
          propErrs cfs "position" (fun w =>
            checkType ["array"] w ++ checkMinItems 3 w ++ checkMaxItems 3 w ++
            checkItems (checkType ["number"]) w)
        | _ => []) v) ++
    propErrs fs "actions" (fun v =>
      checkType ["array"] v ++
      checkItems (fun a =>
        checkType ["object"] a ++
        match a with
        | .obj afs =>
          checkRequired ["t", "type"] afs ++
          propErrs afs "t" (fun w =>
            checkType ["number"] w ++ checkMinimum (.int 0) w) ++
          propErrs afs "type" (checkType ["string"]) ++
          propErrs afs "target" strOrStrArray ++
          propErrs afs "color" (checkType ["string"]) ++
          propErrs afs "duration" (fun w =>
            checkType ["number"] w ++ checkMinimum (.int 0) w)
        | _ => []) v) ++
    propErrs fs "metadata" (checkType ["object"])
  | _ => []

/-- `HASH_TABLE_IR_SCHEMA` from `app/schema.py`, as a checker (loosely
typed: required keys plus per-field primitive types only). -/
def hash_table_schema_errors (doc : JVal) : List String :=
  checkType ["object"] doc ++
  match doc with
  | .obj fs =>
    checkRequired ["pattern", "bounds", "layout", "components", "actions"] fs ++
    propErrs fs "pattern" (checkType ["string"]) ++
    propErrs fs "bounds" (checkType ["object"]) ++
    propErrs fs "layout" (checkType ["object"]) ++
    propErrs fs "components" (checkType ["array"]) ++
    propErrs fs "actions" (checkType ["array"]) ++
    propErrs fs "metadata" (checkType ["object"])
  | _ => []

/-- `GRAPH_IR_SCHEMA` from `app/schema.py`, as a checker. -/
def graph_schema_errors (doc : JVal) : List String :=
  checkType ["object"] doc ++
  match doc with
  | .obj fs =>
    checkRequired ["pattern", "nodes", "edges", "actions"] fs ++
    propErrs fs "pattern" (fun v =>
      checkType ["string"] v ++ checkConst (.str "graph") v) ++
    propErrs fs "nodes" (fun v =>
      checkType ["array"] v ++ checkMinItems 1 v ++
      checkItems (fun c =>
        checkType ["object"] c ++
        match c with
        | .obj cfs =>
          checkRequired ["id", "label"] cfs ++
          propErrs cfs "id" (checkType ["string"]) ++
          propErrs cfs "label" (checkType ["string"]) ++
          propErrs cfs "value" (checkType ["string", "number", "null"]) ++
          propErrs cfs "color" (checkType ["string"]) ++
          propErrs cfs "position" (fun w =>
            checkType ["array"] w ++ checkMinItems 3 w ++ checkMaxItems 3 w ++
            checkItems (checkType ["number"]) w)
        | _ => []) v) ++
    propErrs fs "edges" (fun v =>
      checkType ["array"] v ++
      checkItems (fun c =>
        checkType ["object"] c ++
        match c with
        | .obj cfs =>
          checkRequired ["from", "to"] cfs ++
          propErrs cfs "from" (checkType ["string"]) ++
          propErrs cfs "to" (checkType ["string"]) ++
          propErrs cfs "weight" (checkType ["number", "string", "null"]) ++
          propErrs cfs "label" (checkType ["string", "null"]) ++
          propErrs cfs "directed" (checkType ["boolean"]) ++
          propErrs cfs "color" (checkType ["string"])
        | _ => []) v) ++
    propErrs fs "actions" (fun v =>
      checkType ["array"] v ++
      checkItems (fun a =>
        checkType ["object"] a ++
        match a with
        | .obj afs =>
          checkRequired ["t", "type"] afs ++
          propErrs afs "t" (fun w =>
            checkType ["number"] w ++ checkMinimum (.int 0) w) ++
          propErrs afs "type" (checkType ["string"]) ++
          propErrs afs "target" strOrStrArray ++
          propErrs afs "from" strOrStrArray ++
          propErrs afs "to" strOrStrArray ++
          propErrs afs "color" (checkType ["string"]) ++
          propErrs afs "value" (checkType ["string", "number"]) ++
          propErrs afs "duration" (fun w =>
            checkType ["number"] w ++ checkMinimum (.int 0) w)
        | _ => []) v) ++
    propErrs fs "layout" (fun v =>
      checkType ["object"] v ++
      match v with
      | .obj lfs =>
        propErrs lfs "type" (fun w =>
          checkType ["string"] w ++
          checkEnum [.str "circle", .str "tree", .str "grid", .str "custom"] w) ++
        propErrs lfs "radius" (checkType ["number"]) ++
        propErrs lfs "node_radius" (checkType ["number"]) ++
        propErrs lfs "edge_thickness" (checkType ["number"])
      | _ => []) ++
    propErrs fs "metadata" (checkType ["object"])
  | _ => []

end GenaiManim

namespace GenaiManim

/-- The structural layer of `validate_grid_ir` (and its siblings): schema
errors whose message contains "required" or "type" (case-insensitively),
prefixed with `"Schema: "`; all other jsonschema errors are dropped. -/
def keptSchemaLayer (schemaErrs : List String) : List String :=
  schemaErrs.filterMap fun m =>
    if strContainsSub (strLower m) "required" || strContainsSub (strLower m) "type"
    then some ("Schema: " ++ m) else none

def grid_schema_layer (ir : JVal) : List String :=
  keptSchemaLayer (grid_schema_errors ir)

def sequence_schema_layer (ir : JVal) : List String :=
  keptSchemaLayer (sequence_schema_errors ir)

def flow_schema_layer (ir : JVal) : List String :=
  keptSchemaLayer (flow_schema_errors ir)

def graph_schema_layer (ir : JVal) : List String :=
  keptSchemaLayer (graph_schema_errors ir)

/-- The array elements of `ir.get(key, [])` (the validators reach the
cross-field layer only when the schema layer found no type errors, so the
value is an array there; other shapes yield `[]`). -/
def arrField (ir : JVal) (key : String) : List JVal :=
  match ir.getD key (.arr []) with
  | .arr xs => xs
  | _ => []

/-- Stable insertion into an ascending rational list (Python `sorted`). -/
def pyInsertQ (x : ℚ) : List ℚ → List ℚ
  | [] => [x]
  | y :: ys => if qltB y x then y :: pyInsertQ x ys else x :: y :: ys

def pySortedQ : List ℚ → List ℚ
  | [] => []
  | x :: xs => pyInsertQ x (pySortedQ xs)

/-- Python `len()` where the caller has already ensured the value is sized
(non-sized values are unreachable behind the schema layer's early return). -/
def pyLenD (v : JVal) : ℕ :=
  match v with
  | .str s => s.length
  | .arr xs => xs.length
  | .obj fs => fs.length
  | _ => 0

/-- `times = [a.get("t", 0) for a in actions]` followed by
`times and times != sorted(times)` — the `t` values are numbers whenever
this code is reached (schema type errors return early). -/
def actionsOutOfOrder (ir : JVal) : Bool :=
  let times := (arrField ir "actions").map fun a => (a.getD "t" (.int 0)).toNumQ
  ¬ times.isEmpty && times ≠ pySortedQ times

/-- `validate_grid_ir` from `app/schema.py`: filtered schema layer with early
return, then `grid_pos` arity and action-time-order checks. -/
def validate_grid_ir (ir : JVal) : List String :=
  let errors := grid_schema_layer ir
  if ¬ errors.isEmpty then errors
  else
    let components := arrField ir "components"
    let gpErrs := components.flatMap fun comp =>
      let gp := comp.getD "grid_pos" (.arr [])
      if jTruthy gp && pyLenD gp ≠ 2 then
        ["Component " ++ pyStr (comp.getD "id" .null) ++
         ": grid_pos must be [row, col], got " ++ pyStr gp]
      else []
    let tErrs := if actionsOutOfOrder ir then
      ["Actions must be in non-decreasing order of time (t)"] else []
    gpErrs ++ tErrs

/-- `validate_sequence_ir` from `app/schema.py`: filtered schema layer with
early return, then only the action-time-order check (reference checks were
deliberately removed in the source). -/
def validate_sequence_ir (ir : JVal) : List String :=
  let errors := sequence_schema_layer ir
  if ¬ errors.isEmpty then errors
  else
    if actionsOutOfOrder ir then
      ["Actions must be in non-decreasing order of time (t)"] else []

/-- `validate_flow_ir` from `app/schema.py`. -/
def validate_flow_ir (ir : JVal) : List String :=
  let errors := flow_schema_layer ir
  if ¬ errors.isEmpty then errors
  else
    if actionsOutOfOrder ir then
      ["Actions must be in non-decreasing order of time (t)"] else []

/-- `validate_graph_ir` from `app/schema.py`: filtered schema layer with
early return, then node-`position` arity and action-time-order checks
(node/edge reference checks were deliberately removed in the source). -/
def validate_graph_ir (ir : JVal) : List String :=
  let errors := graph_schema_layer ir
  if ¬ errors.isEmpty then errors
  else
    let nodes := arrField ir "nodes"
    let posErrs := nodes.flatMap fun node =>
      let pos := node.getD "position" .null
      if jTruthy pos && pyLenD pos ≠ 3 then
        ["Node " ++ pyStr (node.getD "id" .null) ++
         ": position must be [x, y, z], got " ++ pyStr pos]
      else []
    let tErrs := if actionsOutOfOrder ir then
      ["Actions must be in non-decreasing order of time (t)"] else []
    posErrs ++ tErrs

/-- `validate_hash_table_ir` from `app/schema.py`: a single structural layer,
every schema error reported with a `"Schema: "` prefix, no filtering and no
cross-field layer. -/
def validate_hash_table_ir (ir : JVal) : List String :=
  (hash_table_schema_errors ir).map ("Schema: " ++ ·)

end GenaiManim

namespace GenaiManim

/-! ### `app/llm_domain.py` and `app/llm_pattern.py` (classifier adapter) -/

/-- Allowed domain labels, from the classifier system prompt in
`app/llm_domain.py`. -/
def ALLOWED_DOMAINS : List String :=
  ["cnn_param", "sorting", "transformer", "cache", "hash_table",
   "graph_traversal", "dynamic_programming", "math", "generic"]

/-- Allowed pattern labels, from the recommender system prompt in
`app/llm_pattern.py`. -/
def ALLOWED_PATTERN_LABELS : List String :=
  ["grid", "sequence", "seq_attention", "flow"]

/-- The extraction step of `call_llm_detect_domain` (`app/llm_domain.py`):
`data.get("domain", "generic")` applied to the parsed structured response. -/
def detect_domain_extract (data : List (String × JVal)) : JVal :=
  (jlookup data "domain").getD (.str "generic")

/-- The extraction step of `call_llm_pattern` (`app/llm_pattern.py`):
`data.get("pattern", "flow")` applied to the parsed structured response. -/
def pattern_extract (data : List (String × JVal)) : JVal :=
  (jlookup data "pattern").getD (.str "flow")

/-! ### `generate_ir_with_validation` (`app/llm.py`)

The generative collaborator (`call_llm_json_ir`, i.e. the two chained LLM
calls) is abstracted as an oracle `gen : String → ℚ → JVal` mapping the
assembled prompt and sampling temperature to the parsed document.  The loop
is instrumented to also return the list of attempts, each recorded as its
temperature together with the outcome of `validate_ir` on that attempt's
document. -/

/-- One attempt record: temperature used, and the validation outcome of the
generated document. -/
abbrev GenAttempt := ℚ × Except PyExc (List String)

/-- `user_text + ("\n\n" + feedback if feedback else "")`. -/
def augmentPrompt (user_text feedback : String) : String :=
  user_text ++ (if feedback ≠ "" then "\n\n" ++ feedback else "")

/-- The feedback block built from a non-empty error list:
bullet-point rendering appended to retry prompts. -/
def mkFeedback (errs : List String) : String :=
  "Correct these issues:\n" ++
    String.intercalate "\n" (errs.map ("- " ++ ·)) ++
    "\nReturn valid JSON only."

/-- The message of the terminal `ValueError` raised by
`generate_ir_with_validation`. -/
def genFailureMsg (errs : List String) : String :=
  "LLM JSON IR generation failed:\n" ++ String.intercalate "\n" errs

/-- The retry loop of `generate_ir_with_validation`: `k` is the number of
zero-temperature attempts still allowed (`max_retries_zero_temp + 1`
initially); when they are exhausted one final attempt runs at temperature
0.3.  Returns the outcome together with the attempt log. -/
def genLoop (gen : String → ℚ → JVal) (user_text : String) (feedback : String) :
    ℕ → Except PyExc JVal × List GenAttempt
  | 0 =>
    -- fallback: one attempt with temperature raised to 0.3
    let doc := gen (augmentPrompt user_text feedback) (mkRat 3 10)
    let v := validate_ir doc
    match v with
    | .error e => (.error e, [(mkRat 3 10, v)])
    | .ok errs =>
      if errs.isEmpty then (.ok doc, [(mkRat 3 10, v)])
      else (.error (.valueError (genFailureMsg errs)), [(mkRat 3 10, v)])
  | k + 1 =>
    let doc := gen (augmentPrompt user_text feedback) (mkRat 0 1)
    let v := validate_ir doc
    match v with
    | .error e => (.error e, [(mkRat 0 1, v)])
    | .ok errs =>
      if errs.isEmpty then (.ok doc, [(mkRat 0 1, v)])
      else
        let (res, log) := genLoop gen user_text (mkFeedback errs) k
        (res, (mkRat 0 1, v) :: log)

/-- `generate_ir_with_validation` from `app/llm.py` (instrumented with the
attempt log). -/
def generate_ir_with_validation (gen : String → ℚ → JVal) (user_text : String)
    (max_retries_zero_temp : ℕ := 2) : Except PyExc JVal × List GenAttempt :=
  genLoop gen user_text "" (max_retries_zero_temp + 1)

end GenaiManim

namespace GenaiManim

/-! ### The render-execution controller of `generate_visualization`
(`app/main.py`, step 3)

The external render engine (`subprocess.run` of `manim` plus the
artifact-existence check) is abstracted as an oracle mapping the invocation
index, the source text and the timeout to one of four outcomes.  The LLM
code regeneration (`call_llm_codegen_with_usage`) is abstracted as an oracle
from the attempt number to the regenerated source. -/

/-- Outcome of one render-engine invocation: clean exit with the artifact
present, clean exit with the artifact missing, non-zero exit
(`CalledProcessError`), or timeout (`TimeoutExpired`). -/
inductive RenderOutcome where
  | okFile
  | okNoFile
  | procError
  | timeout
deriving DecidableEq, Repr

/-- One render-engine invocation in the log: source rendered, timeout passed
(seconds), and outcome. -/
structure RenderCall where
  src : String
  tmo : ℕ
  outcome : RenderOutcome
deriving DecidableEq, Repr

/-- The constant fallback source of `app/main.py` (`fallback_code`). -/
def fallback_code : String :=
  "from manim import *\n\n" ++
  "class AlgorithmScene(Scene):\n" ++
  "    def construct(self):\n" ++
  "        txt = Text(\x27Fallback\x27, font_size=48, color=WHITE)\n" ++
  "        self.play(FadeIn(txt))\n" ++
  "        self.wait(1)\n" ++
  "        self.play(FadeOut(txt))\n" ++
  "        self.wait(1)\n"

/-- Stand-in for the resolved artifact path
`media/videos/<tmp>/480p15/AlgorithmScene.mp4`. -/
def videoArtifactPath : String := "media/videos/tmp/480p15/AlgorithmScene.mp4"

/-- The render loop of `generate_visualization` (`for attempt in
range(1, max_render_attempts + 1)` with `max_render_attempts = 3`),
parameterised by the engine and regeneration oracles.  `remaining` counts the
loop iterations still available (3 at the top call), `attempt` is the
1-based attempt number and `idx` the number of engine invocations so far.
Returns `video_path` and the invocation log. -/
def renderGo (engine : ℕ → String → ℕ → RenderOutcome) (codegen : ℕ → String) :
    (remaining : ℕ) → (attempt : ℕ) → (code : String) → (idx : ℕ) →
    Option String × List RenderCall
  | 0, _, _, _ => (none, [])
  | remaining + 1, attempt, code, idx =>
    let out := engine idx code 180
    let call : RenderCall := ⟨code, 180, out⟩
    match out with
    | .okFile => (some videoArtifactPath, [call])
    | .okNoFile =>
      -- "Render succeeded but video not found": loop continues with the
      -- same source (no regeneration, and no fallback even on the last
      -- attempt).
      let (res, rest) := renderGo engine codegen remaining (attempt + 1) code (idx + 1)
      (res, call :: rest)
    | .procError | .timeout =>
      if remaining = 0 then
        -- attempt == max_render_attempts: substitute the fallback source and
        -- invoke once more with the short timeout; never retried.
        let fbOut := engine (idx + 1) fallback_code 60
        let fbCall : RenderCall := ⟨fallback_code, 60, fbOut⟩
        ((if fbOut = .okFile then some videoArtifactPath else none),
         [call, fbCall])
      else
        let (res, rest) :=
          renderGo engine codegen remaining (attempt + 1) (codegen attempt) (idx + 1)
        (res, call :: rest)

/-- The render-execution controller: three attempts starting from the
sanitized generated source. -/
def render_controller (engine : ℕ → String → ℕ → RenderOutcome)
    (codegen : ℕ → String) (initial_code : String) :
    Option String × List RenderCall :=
  renderGo engine codegen 3 1 initial_code 0

/-- Structural decomposition of a render-loop run with `r` primary attempts:
the log splits into a non-empty block of at most `r` primary invocations
(timeout 180) followed by at most one fallback invocation (timeout 60 on the
constant fallback source), the fallback occurring exactly when all `r`
primary attempts were used and the last one raised
(`CalledProcessError`/`TimeoutExpired`); the returned path is `some` exactly
when some logged invocation produced the artifact. -/
def RenderDecomp (res : Option String) (log : List RenderCall) (r : ℕ) : Prop :=
  ∃ primary fb,
    log = primary ++ fb ∧
    primary ≠ [] ∧
    primary.length ≤ r ∧
    (∀ c ∈ primary, c.tmo = 180) ∧
    (fb = [] ∨ ∃ fc, fb = [fc] ∧ fc.tmo = 60 ∧ fc.src = fallback_code) ∧
    (fb ≠ [] ↔ primary.length = r ∧ ∃ c, primary.getLast? = some c ∧
      (c.outcome = .procError ∨ c.outcome = .timeout)) ∧
    (res.isSome ↔ ∃ c ∈ log, c.outcome = .okFile)

end GenaiManim

namespace GenaiManim

/-! ### The sanitizer of `call_llm_codegen` (`app/llm_codegen.py`)

The post-processing applied to the generated source (fence stripping, color
substitutions, hex-color replacement, scene-class renaming, undefined-helper
removal) is embedded over `List Char`.  Each `re.sub` call becomes a
left-to-right scanner; the regular expressions involved are deterministic
(their backtracking always resolves to maximal-munch or, for the trailing
`\s*$`, to the largest anchor position), which the scanners implement
directly. -/

/-- Python `str.replace(pat, repl)`: non-overlapping left-to-right
replacement (fuel-bounded; callers pass the string length). -/
def replaceAllAux (pat repl : List Char) : ℕ → List Char → List Char
  | 0, s => s
  | fuel + 1, s =>
    match s with
    | [] => []
    | c :: t =>
      if pat.isPrefixOf s then repl ++ replaceAllAux pat repl fuel (s.drop pat.length)
      else c :: replaceAllAux pat repl fuel t

def pyReplace (s pat repl : List Char) : List Char :=
  replaceAllAux pat repl s.length s

/-- Python `str.strip()` whitespace (also the ASCII content of `re` `\s`). -/
def isPyWS (c : Char) : Bool :=
  c = ' ' || c = '\t' || c = '\n' || c = '\r' || c = '\x0b' || c = '\x0c'

def pyStrip (s : List Char) : List Char :=
  ((s.dropWhile isPyWS).reverse.dropWhile isPyWS).reverse

/-- `re` word character `\w` (ASCII). -/
def isWordChar (c : Char) : Bool := c.isAlphanum || c = '_'

/-- `\b` holds before the current position given the previous character. -/
def boundaryBefore (prev : Option Char) : Bool :=
  match prev with
  | none => true
  | some c => ¬ isWordChar c

/-- `^` holds (with `re.M`) at the start or just after a newline. -/
def atLineStart (prev : Option Char) : Bool :=
  prev = none || prev = some '\n'

/-- The single-quote character (Python `'`). -/
def squote : Char := Char.ofNat 39

/-- Hex digit (`[0-9A-Fa-f]`). -/
def isHexDigit (c : Char) : Bool :=
  c.isDigit || (97 ≤ c.toNat && c.toNat ≤ 102) || (65 ≤ c.toNat && c.toNat ≤ 70)

/-- Generic `re.sub` driver: scan left to right over the original text,
carrying the previous original character (for `\b`/`^` tests); on a match,
emit the replacement, skip the consumed characters and continue after them.
`tryM prev s` returns the replacement and the number of characters consumed
when the pattern matches at the head of `s`. -/
def scanSub (tryM : Option Char → List Char → Option (List Char × ℕ)) :
    ℕ → Option Char → List Char → List Char
  | 0, _, s => s
  | fuel + 1, prev, s =>
    match s with
    | [] => []
    | c :: t =>
      match tryM prev s with
      | some (repl, consumed) =>
          repl ++ scanSub tryM fuel ((s.take consumed).getLast?) (s.drop consumed)
      | none => c :: scanSub tryM fuel (some c) t

def runSub (tryM : Option Char → List Char → Option (List Char × ℕ))
    (s : List Char) : List Char :=
  scanSub tryM s.length none s

/-- Matcher for `rf'\bcolor\s*=\s*{invalid}\b'` → `f'color={valid}'`. -/
def matchColorEq (inv val : List Char) (prev : Option Char) (s : List Char) :
    Option (List Char × ℕ) :=
  if ¬ boundaryBefore prev then none
  else if ¬ ("color".toList.isPrefixOf s) then none
  else
    let s₁ := s.drop 5
    let ws₁ := s₁.takeWhile isPyWS
    let s₂ := s₁.dropWhile isPyWS
    match s₂ with
    | '=' :: s₃ =>
      let ws₂ := s₃.takeWhile isPyWS
      let s₄ := s₃.dropWhile isPyWS
      if ¬ (inv.isPrefixOf s₄) then none
      else
        let s₅ := s₄.drop inv.length
        match s₅ with
        | c :: _ => if isWordChar c then none else
            some ("color=".toList ++ val, 5 + ws₁.length + 1 + ws₂.length + inv.length)
        | [] => some ("color=".toList ++ val, 5 + ws₁.length + 1 + ws₂.length + inv.length)
    | _ => none

/-- Matcher for `rf'\b{invalid}\b(?=\s*[,\)])'` → `valid` (the lookahead is
not consumed). -/
def matchColorBare (inv val : List Char) (prev : Option Char) (s : List Char) :
    Option (List Char × ℕ) :=
  if ¬ boundaryBefore prev then none
  else if ¬ (inv.isPrefixOf s) then none
  else
    let rest := s.drop inv.length
    match rest.dropWhile isPyWS with
    | c :: _ => if c = ',' || c = ')' then some (val, inv.length) else none
    | [] => none

/-- Matcher for `r'color\s*=\s*["\']#[0-9A-Fa-f]{6}["\']'` → `'color=BLUE'`
(note: no `\b`, and the opening and closing quotes need not agree). -/
def matchHexColor (_prev : Option Char) (s : List Char) :
    Option (List Char × ℕ) :=
  if ¬ ("color".toList.isPrefixOf s) then none
  else
    let s₁ := s.drop 5
    let ws₁ := s₁.takeWhile isPyWS
    match s₁.dropWhile isPyWS with
    | '=' :: s₃ =>
      let ws₂ := s₃.takeWhile isPyWS
      match s₃.dropWhile isPyWS with
      | q₁ :: '#' :: s₅ =>
        if ¬ (q₁ = '"' || q₁ = squote) then none
        else
          let hex := s₅.take 6
          if hex.length = 6 && hex.all isHexDigit then
            match s₅.drop 6 with
            | q₂ :: _ =>
              if q₂ = '"' || q₂ = squote then
                some ("color=BLUE".toList,
                      5 + ws₁.length + 1 + ws₂.length + 1 + 1 + 6 + 1)
              else none
            | [] => none
          else none
      | _ => none
    | _ => none

/-- Matcher for `r'class\s+\w+Scene\s*\(Scene\)'` →
`'class AlgorithmScene(Scene)'`.  The regex matches exactly when a maximal
word run follows `class` + whitespace, ends in `Scene`, has at least one
character before that suffix, and is followed by `\s*` and `(Scene)`. -/
def matchClass (_prev : Option Char) (s : List Char) :
    Option (List Char × ℕ) :=
  if ¬ ("class".toList.isPrefixOf s) then none
  else
    let s₁ := s.drop 5
    let ws₁ := s₁.takeWhile isPyWS
    if ws₁.isEmpty then none
    else
      let s₂ := s₁.dropWhile isPyWS
      let w := s₂.takeWhile isWordChar
      if ¬ (6 ≤ w.length ∧ w.drop (w.length - 5) = "Scene".toList) then none
      else
        let s₃ := s₂.dropWhile isWordChar
        let ws₂ := s₃.takeWhile isPyWS
        let s₄ := s₃.dropWhile isPyWS
        if "(Scene)".toList.isPrefixOf s₄ then
          some ("class AlgorithmScene(Scene)".toList,
                5 + ws₁.length + w.length + ws₂.length + 7)
        else none

/-- Largest index `k ≤ ws.length` at which `$` can hold after consuming `k`
whitespace characters: the end of the string, or just before a newline of
the run.  `none` when no such position exists (the match fails). -/
def trailDollar (ws : List Char) (restEmpty : Bool) : Option ℕ :=
  if restEmpty then some ws.length
  else
    let idxs := (ws.enum.filter fun (_, c) => c = '\n').map Prod.fst
    idxs.getLast?

/-- Matcher for
`rf'^\s*self\.play\(\s*{name}\([^)]*\)\s*\)\s*$'` (with `re.M`) →
the 8-space-indented `self.wait(0.1)` line. -/
def matchHelperPlay (name : List Char) (prev : Option Char) (s : List Char) :
    Option (List Char × ℕ) :=
  if ¬ atLineStart prev then none
  else
    let ws₀ := s.takeWhile isPyWS
    let s₁ := s.dropWhile isPyWS
    if ¬ ("self.play(".toList.isPrefixOf s₁) then none
    else
      let s₂ := s₁.drop 10
      let ws₁ := s₂.takeWhile isPyWS
      let s₃ := s₂.dropWhile isPyWS
      if ¬ (name.isPrefixOf s₃) then none
      else
        match s₃.drop name.length with
        | '(' :: s₅ =>
          let body := s₅.takeWhile (· ≠ ')')
          match s₅.dropWhile (· ≠ ')') with
          | ')' :: s₇ =>
            let ws₂ := s₇.takeWhile isPyWS
            match s₇.dropWhile isPyWS with
            | ')' :: s₉ =>
              let wsT := s₉.takeWhile isPyWS
              let rest := s₉.dropWhile isPyWS
              match trailDollar wsT rest.isEmpty with
              | some k =>
                some ("        self.wait(0.1)".toList,
                      ws₀.length + 10 + ws₁.length + name.length + 1 +
                        body.length + 1 + ws₂.length + 1 + k)
              | none => none
            | _ => none
          | _ => none
        | _ => none

/-- Matcher for `rf'^\s*{name}\([^)]*\)\s*$'` (with `re.M`) → the
8-space-indented `self.wait(0.1)` line. -/
def matchHelperBare (name : List Char) (prev : Option Char) (s : List Char) :
    Option (List Char × ℕ) :=
  if ¬ atLineStart prev then none
  else
    let ws₀ := s.takeWhile isPyWS
    let s₁ := s.dropWhile isPyWS
    if ¬ (name.isPrefixOf s₁) then none
    else
      match s₁.drop name.length with
      | '(' :: s₃ =>
        let body := s₃.takeWhile (· ≠ ')')
        match s₃.dropWhile (· ≠ ')') with
        | ')' :: s₅ =>
          let wsT := s₅.takeWhile isPyWS
          let rest := s₅.dropWhile isPyWS
          match trailDollar wsT rest.isEmpty with
          | some k =>
            some ("        self.wait(0.1)".toList,
                  ws₀.length + name.length + 1 + body.length + 1 + k)
          | none => none
        | _ => none
      | _ => none

/-- `INVALID_COLOR_MAP` from `app/llm_codegen.py` (insertion order). -/
def INVALID_COLOR_MAP : List (String × String) :=
  [("LIGHT_BLUE", "BLUE_B"),
   ("DARK_BLUE", "BLUE_D"),
   ("LIGHT_RED", "RED_B"),
   ("DARK_RED", "RED_D"),
   ("LIGHT_GREEN", "GREEN_B"),
   ("DARK_GREEN", "GREEN_D"),
   ("LIGHT_YELLOW", "YELLOW_B"),
   ("DARK_YELLOW", "YELLOW_D"),
   ("CYAN", "TEAL"),
   ("MAGENTA", "PINK"),
   ("VIOLET", "PURPLE"),
   ("INDIGO", "PURPLE_D"),
   ("BROWN", "MAROON"),
   ("LIME", "GREEN_B"),
   ("NAVY", "BLUE_D")]

/-- `UNKNOWN_HELPERS` from `app/llm_codegen.py`. -/
def UNKNOWN_HELPERS : List String :=
  ["AddPointToGraph", "PlotPoint", "CreateGraph", "AnimateCurvePoint",
   "DrawArrowBetween", "ShowValueOnPlot"]

/-- The color-substitution loop: per map entry, the `color=`-argument sub
then the bare-identifier sub. -/
def colorSubsPass (s : List Char) : List Char :=
  INVALID_COLOR_MAP.foldl
    (fun acc (p : String × String) =>
      let acc := runSub (matchColorEq p.1.toList p.2.toList) acc
      runSub (matchColorBare p.1.toList p.2.toList) acc)
    s

/-- The undefined-helper removal loop: per helper name, the
`self.play(...)` form then the bare-call form. -/
def helperSubsPass (s : List Char) : List Char :=
  UNKNOWN_HELPERS.foldl
    (fun acc (n : String) =>
      let acc := runSub (matchHelperPlay n.toList) acc
      runSub (matchHelperBare n.toList) acc)
    s

/-- The scene-class renaming pass
(`re.sub(r'class\s+\w+Scene\s*\(Scene\)', 'class AlgorithmScene(Scene)', code)`). -/
def forceClassName (s : List Char) : List Char :=
  runSub matchClass s

/-- The full sanitization applied by `call_llm_codegen` (and, identically,
`call_llm_codegen_with_usage`) to the generated source: markdown-fence
stripping + `strip()`, the color substitution table, hex-color replacement,
scene-class renaming, and undefined-helper-call removal. -/
def sanitize_code (s : List Char) : List Char :=
  let s := pyReplace s "```python".toList []
  let s := pyReplace s "```".toList []
  let s := pyStrip s
  let s := colorSubsPass s
  let s := runSub matchHexColor s
  let s := forceClassName s
  let s := helperSubsPass s
  s

end GenaiManim

namespace GenaiManim

/-! ### `expand_bubble_trace` and `render_manim_scene` (`app/render.py`) -/

/-- One trace event produced by `expand_bubble_trace`: the Python dict
`{"op": op, "from": f"arr{j}", "to": f"arr{j+1}", "step": step}` with the
adjacent-pair position `j` kept structured. -/
structure BEvent where
  op : String
  j : ℕ
  step : ℕ
deriving DecidableEq, Repr

/-- The JSON rendering of a trace event (the dict built in the source). -/
def BEvent.toJVal (e : BEvent) : JVal :=
  .obj [("op", .str e.op),
        ("from", .str ("arr" ++ toString e.j)),
        ("to", .str ("arr" ++ toString (e.j + 1))),
        ("step", .int e.step)]

/-- The inner loop `for j in range(len(arr) - i - 1)` of
`expand_bubble_trace`: `c` comparisons remain, `j` is the current absolute
index (for the `arr{j}` labels), `step` the current pass number.  Emits a
`compare` event per pair and a `swap` event (after swapping) when
`arr[j] > arr[j+1]`.  The final catch-all branch is unreachable for the
in-range comparison counts the outer loop passes. -/
def passGo : List ℤ → ℕ → ℕ → ℕ → List ℤ × List BEvent
  | l, _, 0, _ => (l, [])
  | a :: b :: t, j, c + 1, step =>
    if a > b then
      let (r, es) := passGo (a :: t) (j + 1) c step
      (b :: r, ⟨"compare", j, step⟩ :: ⟨"swap", j, step⟩ :: es)
    else
      let (r, es) := passGo (b :: t) (j + 1) c step
      (a :: r, ⟨"compare", j, step⟩ :: es)
  | l, _, _ + 1, _ => (l, [])

/-- The outer loop `for i in range(len(arr))` of `expand_bubble_trace`
(`step` starts at 1 and increments once per pass). -/
def bubbleGo : List ℤ → ℕ → ℕ → List ℤ × List BEvent
  | l, 0, _ => (l, [])
  | l, r + 1, i =>
    let (l₁, es₁) := passGo l 0 (l.length - i - 1) (i + 1)
    let (l₂, es₂) := bubbleGo l₁ r (i + 1)
    (l₂, es₁ ++ es₂)

/-- The full bubble trace over the label array: final array state and the
emitted event list. -/
def bubbleTrace (labels : List ℤ) : List ℤ × List BEvent :=
  bubbleGo labels labels.length 0

/-- Decimal-digit run parse (no digits ⇒ `none`). -/
def parseDigits (cs : List Char) : Option ℕ :=
  if cs.isEmpty || ¬ cs.all Char.isDigit then none
  else some (cs.foldl (fun acc c => acc * 10 + (c.toNat - 48)) 0)

/-- Python `int(s)` on a string: optional surrounding whitespace, optional
sign, decimal digits. -/
def pyIntOfStr (s : String) : Option ℤ :=
  match pyStrip s.toList with
  | '+' :: ds => (parseDigits ds).map Int.ofNat
  | '-' :: ds => (parseDigits ds).map (fun n => -(n : ℤ))
  | ds => (parseDigits ds).map Int.ofNat

/-- Python `int(x)` on a parsed-JSON value (`none` models the
`TypeError`/`ValueError` raised on unparsable values). -/
def pyInt : JVal → Option ℤ
  | .int n => some n
  | .bool b => some (if b then 1 else 0)
  | .float q => some (q.num.tdiv q.den)
  | .str s => pyIntOfStr s
  | _ => none

/-- `arr = [int(c["label"]) for c in ir.get("components", [])]`:
`none` models the exceptions raised on a missing/unparsable label or a
non-list `components`. -/
def extractLabels (doc : JVal) : Option (List ℤ) :=
  match doc with
  | .obj fs =>
    match jlookup fs "components" with
    | some (.arr cs) =>
      cs.mapM fun c =>
        match c with
        | .obj cfs =>
          match jlookup cfs "label" with
          | some v => pyInt v
          | none => none
        | _ => none
    | some _ => none
    | none => some []
  | _ => none

/-- Python dict assignment `d[k] = v`: replace in place, or append. -/
def setKey : List (String × JVal) → String → JVal → List (String × JVal)
  | [], k, v => [(k, v)]
  | (k', v') :: rest, k, v =>
    if k' = k then (k, v) :: rest else (k', v') :: setKey rest k v

/-- `expand_bubble_trace` from `app/render.py`: replaces the document's
`events` with the full bubble-sort trace over the integer labels of its
components. -/
def expand_bubble_trace (doc : JVal) : Option JVal :=
  match doc with
  | .obj fs =>
    match extractLabels doc with
    | some labels =>
      some (.obj (setKey fs "events"
        (.arr (((bubbleTrace labels).2).map BEvent.toJVal))))
    | none => none
  | _ => none

/-- The IR transformation `render_manim_scene` performs before invoking the
render engine: `ir = expand_bubble_trace(ir)` (`app/render.py`). -/
def render_manim_scene_ir (ir : JVal) : Option JVal := expand_bubble_trace ir

/-- Swap the adjacent positions `k` and `k+1` of a list (the effect of one
`swap` event at index `k`). -/
def swapAdj : ℕ → List ℤ → List ℤ
  | 0, a :: b :: t => b :: a :: t
  | k + 1, a :: t => a :: swapAdj k t
  | _, l => l

/-- Apply the swap events of a trace, in order, to an array. -/
def applySwapEvents (l : List ℤ) (es : List BEvent) : List ℤ :=
  es.foldl (fun acc e => swapAdj e.j acc) l

end GenaiManim

namespace GenaiManim

/-! ### Spec-side predicates and concrete documents used by the claims -/

/-- Modelled from the spec: the id values of the document's
`components`/`nodes` entries ("Every `id` in `components`/`nodes` is
unique"). -/
def specComponentIds (doc : JVal) : List JVal :=
  (arrField doc "components" ++ arrField doc "nodes").filterMap fun c =>
    match c with
    | .obj fs => jlookup fs "id"
    | _ => none

/-- Modelled from the spec: the `from`/`to`/`target` reference values
occurring in the document's actions/events or graph edges. -/
def specRefValues (doc : JVal) : List JVal :=
  (arrField doc "actions" ++ arrField doc "events" ++ arrField doc "edges").flatMap
    fun e =>
      match e with
      | .obj fs => ["from", "to", "target"].filterMap (jlookup fs)
      | _ => []

/-- Modelled from the spec: the document contains a foreign-key-like
reference that names no existing component/node id. -/
def hasDanglingReference_spec (doc : JVal) : Bool :=
  (specRefValues doc).any fun r => ¬ (specComponentIds doc).any (JVal.beq · r)

/-- Two distinct entries carry equal values. -/
def jvalHasDup : List JVal → Bool
  | [] => false
  | x :: xs => xs.any (JVal.beq · x) || jvalHasDup xs

/-- Modelled from the spec: two distinct components/nodes share an id. -/
def hasDuplicateId_spec (doc : JVal) : Bool :=
  jvalHasDup (specComponentIds doc)

/-- A schema-valid sequence IR whose action `target` names no component id. -/
def seqDanglingDoc : JVal := .obj [
  ("pattern", .str "sequence"),
  ("bounds", .obj [("xmin", .int 0), ("xmax", .int 10),
                   ("ymin", .int 0), ("ymax", .int 6)]),
  ("layout", .obj [("n_items", .int 1), ("item_size", .float (mkRat 1 2))]),
  ("components", .arr [.obj [("id", .str "a"), ("type", .str "circle"),
                             ("seq_pos", .int 0)]]),
  ("actions", .arr [.obj [("t", .int 0), ("type", .str "move"),
                          ("target", .str "ghost")]])]

/-- A schema-valid grid IR with two components sharing the id `"a"`. -/
def gridDupDoc : JVal := .obj [
  ("pattern", .str "grid"),
  ("bounds", .obj [("xmin", .int 0), ("xmax", .int 10),
                   ("ymin", .int 0), ("ymax", .int 6)]),
  ("layout", .obj [("n_rows", .int 1), ("n_cols", .int 2),
                   ("cell_size", .float (mkRat 1 2))]),
  ("components", .arr [
    .obj [("id", .str "a"), ("type", .str "cell"),
          ("grid_pos", .arr [.int 0, .int 0])],
    .obj [("id", .str "a"), ("type", .str "cell"),
          ("grid_pos", .arr [.int 0, .int 1])]]),
  ("actions", .arr [])]

/-- An attention IR that is structurally invalid (`tokens` missing) and also
violates cross-field invariants. -/
def attnMixedDoc : JVal := .obj [
  ("pattern_type", .str "seq_attention"),
  ("weights", .arr [.float (mkRat 1 2)]),
  ("query_index", .int 3)]

/-- A base IR document whose only event carries a dangling `from`
reference. -/
def baseDanglingDoc : JVal := .obj [
  ("components", .arr [.obj [("id", .str "a")]]),
  ("events", .arr [.obj [("t", .int 0), ("op", .str "compare"),
                         ("from", .str "arr9")]])]

/-- Sanitizer input consisting of a single known-undefined helper call. -/
def helperLineInput : List Char := "AddPointToGraph(1)".toList

/-- Sanitizer input declaring a `Scene` subclass whose name does not end in
`Scene`. -/
def fooSceneInput : List Char :=
  "class Foo(Scene):\n    def construct(self):\n        self.wait(1)".toList

/-- A generator stub that always returns the empty JSON object (which fails
validation with two `required` errors). -/
def genAlwaysInvalid : String → ℚ → JVal := fun _ _ => .obj []

/-- A render-engine stub whose every invocation exits cleanly but produces
no artifact file. -/
def engineCleanNoArtifact : ℕ → String → ℕ → RenderOutcome :=
  fun _ _ _ => .okNoFile

/-- A codegen stub returning a fixed source. -/
def codegenConst : ℕ → String := fun _ => "code"

end GenaiManim

namespace GenaiManim

/-! ## Theorems -/

/-! ### Helper lemmas -/

@[simp] theorem except_bind_ok {ε α β : Type} (a : α) (f : α → Except ε β) :
    (Except.ok a : Except ε α) >>= f = f a := rfl

@[simp] theorem except_bind_error {ε α β : Type} (e : ε) (f : α → Except ε β) :
    (Except.error e : Except ε α) >>= f = .error e := rfl

@[simp] theorem except_map_ok {ε α β : Type} (a : α) (f : α → β) :
    f <$> (Except.ok a : Except ε α) = .ok (f a) := rfl

@[simp] theorem except_map_error {ε α β : Type} (e : ε) (f : α → β) :
    f <$> (Except.error e : Except ε α) = .error e := rfl

theorem jlookup_setKey_self (fs : List (String × JVal)) (k : String) (v : JVal) :
    jlookup (setKey fs k v) k = some v := by
  induction fs with
  | nil => simp [setKey, jlookup]
  | cons p rest ih =>
    obtain ⟨k', v'⟩ := p
    by_cases h : k' = k
    · simp [setKey, h, jlookup]
    · simp [setKey, h, jlookup, ih]

theorem jlookup_setKey_other (fs : List (String × JVal)) (k k' : String)
    (v : JVal) (h : k' ≠ k) : jlookup (setKey fs k v) k' = jlookup fs k' := by
  induction fs with
  | nil => simp [setKey, jlookup, Ne.symm h]
  | cons p rest ih =>
    obtain ⟨k₀, v₀⟩ := p
    by_cases h0 : k₀ = k
    · subst h0
      simp [setKey, jlookup, Ne.symm h]
    · simp [setKey, h0, jlookup, ih]

theorem collectCompIds_append (xs ys : List JVal) :
    collectCompIds (xs ++ ys) =
      match collectCompIds xs with
      | .error e => .error e
      | .ok a =>
        match collectCompIds ys with
        | .error e => .error e
        | .ok b => .ok (a ++ b) := by
  induction xs with
  | nil =>
    simp only [List.nil_append, collectCompIds]
    cases collectCompIds ys <;> rfl
  | cons x rest ih =>
    cases x with
    | obj fs =>
      simp only [List.cons_append, collectCompIds]
      rw [List.append_eq, ih]
      cases collectCompIds rest <;> cases collectCompIds ys <;>
        cases jlookup fs "id" <;> simp
    | null => rfl
    | bool b => rfl
    | int n => rfl
    | float q => rfl
    | str s => rfl
    | arr l => rfl

@[simp] theorem except_pure {ε α : Type} (a : α) :
    (pure a : Except ε α) = .ok a := rfl

theorem collectCompIds_mem_id (comps : List JVal) (ids : List JVal)
    (cfs : List (String × JVal)) (w : JVal)
    (hok : collectCompIds comps = .ok ids)
    (hmem : JVal.obj cfs ∈ comps)
    (hid : jlookup cfs "id" = some w) : w ∈ ids := by
  induction comps generalizing ids with
  | nil => cases hmem
  | cons c rest ih =>
    cases c with
    | obj fs =>
      simp only [collectCompIds] at hok
      cases hrest : collectCompIds rest with
      | error e => rw [hrest] at hok; simp at hok
      | ok ids₀ =>
        rw [hrest] at hok
        rcases List.mem_cons.mp hmem with hc | hc
        · cases hc
          rw [hid] at hok
          simp only [except_bind_ok, except_pure, Except.ok.injEq] at hok
          subst hok
          exact List.mem_cons_self _ _
        · cases hidc : jlookup fs "id" with
          | none =>
            rw [hidc] at hok
            simp only [except_bind_ok, except_pure, Except.ok.injEq] at hok
            subst hok
            exact ih ids₀ hrest hc
          | some w' =>
            rw [hidc] at hok
            simp only [except_bind_ok, except_pure, Except.ok.injEq] at hok
            subst hok
            exact List.mem_cons_of_mem _ (ih ids₀ hrest hc)
    | null => simp [collectCompIds] at hok
    | bool b => simp [collectCompIds] at hok
    | int n => simp [collectCompIds] at hok
    | float q => simp [collectCompIds] at hok
    | str s => simp [collectCompIds] at hok
    | arr l => simp [collectCompIds] at hok

theorem refErrors_congr_ids (ids ids₁ : List JVal)
    (h : ∀ v, ids₁.any (JVal.beq · v) = ids.any (JVal.beq · v)) :
    ∀ ps, refErrors ids₁ ps = refErrors ids ps := by
  intro ps
  induction ps with
  | nil => rfl
  | cons p rest ih =>
    obtain ⟨i, e⟩ := p
    cases e <;> simp [refErrors, ih, h]

theorem refErrors_nonempty_of_dangling (ids : List JVal)
    (pairs : List (ℕ × JVal)) (i : ℕ) (efs : List (String × JVal))
    (k : String) (v : JVal) (rs : List String)
    (hmem : (i, JVal.obj efs) ∈ pairs)
    (hk : k ∈ (["from", "to", "target"] : List String))
    (hv : jlookup efs k = some v)
    (hany : ids.any (JVal.beq · v) = false)
    (hres : refErrors ids pairs = .ok rs) : rs ≠ [] := by
  induction pairs generalizing rs with
  | nil => cases hmem
  | cons p rest ih =>
    obtain ⟨i', e⟩ := p
    rcases List.mem_cons.mp hmem with hc | hc
    · cases hc
      simp only [refErrors] at hres
      cases hrest : refErrors ids rest with
      | error ex => rw [hrest] at hres; simp at hres
      | ok rrs =>
        rw [hrest] at hres
        simp only [except_bind_ok, except_pure, Except.ok.injEq] at hres
        subst hres
        have hmsg : ("event[" ++ toString i ++ "] references undefined " ++
            pyQuote k ++ ": " ++ pyStr v) ∈
            (["from", "to", "target"].flatMap fun k' =>
              match jlookup efs k' with
              | some v' =>
                if ids.any (JVal.beq · v') then []
                else ["event[" ++ toString i ++ "] references undefined " ++
                      pyQuote k' ++ ": " ++ pyStr v']
              | none => []) :=
          List.mem_flatMap.mpr ⟨k, hk, by simp [hv, hany]⟩
        intro habs
        exact List.ne_nil_of_mem hmsg (List.append_eq_nil.mp habs).1
    · cases e with
      | obj efs' =>
        simp only [refErrors] at hres
        cases hrest : refErrors ids rest with
        | error ex => rw [hrest] at hres; simp at hres
        | ok rrs =>
          rw [hrest] at hres
          simp only [except_bind_ok, except_pure, Except.ok.injEq] at hres
          subst hres
          intro habs
          exact ih rrs hc hrest (List.append_eq_nil.mp habs).2
      | null => simp [refErrors] at hres
      | bool b => simp [refErrors] at hres
      | int n => simp [refErrors] at hres
      | float q => simp [refErrors] at hres
      | str s => simp [refErrors] at hres
      | arr l => simp [refErrors] at hres

/-! ### C5 — pattern resolver -/

/-- **C5.** `resolve_pattern` returns the domain-table entry whenever the
domain is a key of the override table; otherwise the pattern matching the
lowercased recommendation when that is one of the five known kinds;
otherwise the flow pattern — and in every case one of the five defined
pattern kinds, never raising, for all string inputs. -/
theorem resolve_pattern_domain_priority_and_total (domain llm_pattern : String) :
    (∀ pt, plookup DOMAIN_TO_PATTERN domain = some pt →
      resolve_pattern domain llm_pattern = pt) ∧
    (plookup DOMAIN_TO_PATTERN domain = none →
      ∀ pt, plookup VALID_PATTERNS (strLower llm_pattern) = some pt →
        resolve_pattern domain llm_pattern = pt) ∧
    (plookup DOMAIN_TO_PATTERN domain = none →
      plookup VALID_PATTERNS (strLower llm_pattern) = none →
      resolve_pattern domain llm_pattern = PatternType.FLOW) ∧
    resolve_pattern domain llm_pattern ∈
      [PatternType.GRID, PatternType.SEQUENCE, PatternType.FLOW,
       PatternType.GRAPH, PatternType.SEQ_ATTENTION] := by
  refine ⟨fun pt h => by simp [resolve_pattern, h],
          fun h pt h' => by simp [resolve_pattern, h, h'],
          fun h h' => by simp [resolve_pattern, h, h'],
          ?_⟩
  cases resolve_pattern domain llm_pattern <;> simp

/-- Witness for C5 at concrete inputs: a forced domain, a recognized
pattern with unknown domain, and the double-unknown fallback. -/
theorem resolve_pattern_domain_priority_and_total_witness :
    resolve_pattern "cnn_param" "x" = PatternType.GRID ∧
    resolve_pattern "zzz" "GRID" = PatternType.GRID ∧
    resolve_pattern "" "" = PatternType.FLOW :=
  ⟨(resolve_pattern_domain_priority_and_total "cnn_param" "x").1 _ (by decide),
   (resolve_pattern_domain_priority_and_total "zzz" "GRID").2.1 (by decide) _ (by decide),
   (resolve_pattern_domain_priority_and_total "" "").2.2.1 (by decide) (by decide)⟩

/-! ### C9 — classifier adapter extraction -/

/-- **C9 (counterexample).** The domain extraction does not fall back to
`"generic"` on an unrecognized label: a response carrying the unknown
domain `"quantum_flow"` is returned unchanged (and likewise the pattern
extraction returns the unknown label `"spiral"` unchanged), contradicting
the claim that unrecognized values map to the safe default. -/
theorem classifier_extract_keeps_unrecognized_values :
    detect_domain_extract [("domain", .str "quantum_flow")] = .str "quantum_flow" ∧
    ALLOWED_DOMAINS.contains "quantum_flow" = false ∧
    JVal.beq (detect_domain_extract [("domain", .str "quantum_flow")])
      (.str "generic") = false ∧
    pattern_extract [("pattern", .str "spiral")] = .str "spiral" ∧
    ALLOWED_PATTERN_LABELS.contains "spiral" = false ∧
    JVal.beq (pattern_extract [("pattern", .str "spiral")]) (.str "flow") = false :=
  ⟨rfl, by decide, by decide, rfl, by decide, by decide⟩

/-- **C9 (amended).** The extraction steps of the domain classifier and the
pattern recommender default (`"generic"` / `"flow"`) only when the field is
absent from the structured response; any present value — recognized or not —
is returned unchanged. -/
theorem classifier_extract_defaults_only_when_absent
    (data : List (String × JVal)) :
    (jlookup data "domain" = none → detect_domain_extract data = .str "generic") ∧
    (∀ v, jlookup data "domain" = some v → detect_domain_extract data = v) ∧
    (jlookup data "pattern" = none → pattern_extract data = .str "flow") ∧
    (∀ v, jlookup data "pattern" = some v → pattern_extract data = v) :=
  ⟨fun h => by simp [detect_domain_extract, h],
   fun v h => by simp [detect_domain_extract, h],
   fun h => by simp [pattern_extract, h],
   fun v h => by simp [pattern_extract, h]⟩

/-- Witness for the amended C9 at concrete responses. -/
theorem classifier_extract_defaults_only_when_absent_witness :
    detect_domain_extract [] = .str "generic" ∧
    detect_domain_extract [("domain", .str "sorting")] = .str "sorting" ∧
    pattern_extract [] = .str "flow" ∧
    pattern_extract [("pattern", .str "grid")] = .str "grid" :=
  ⟨(classifier_extract_defaults_only_when_absent []).1 rfl,
   (classifier_extract_defaults_only_when_absent _).2.1 _ rfl,
   (classifier_extract_defaults_only_when_absent []).2.2.1 rfl,
   (classifier_extract_defaults_only_when_absent _).2.2.2 _ rfl⟩

/-! ### C8 — two validation layers -/

/-- **C8 (counterexample).** The attention validator does not skip its
cross-field layer when the structural layer reports errors: on a document
with a missing required `tokens` field the returned list mixes the schema
message with cross-field messages such as `query_index out of range`. -/
theorem validate_attention_ir_mixes_layers :
    attention_schema_errors attnMixedDoc ≠ [] ∧
    validate_attention_ir attnMixedDoc =
      .ok ["\x27tokens\x27 is a required property",
           "len(weights) must equal len(tokens) for 1D weights",
           "query_index out of range"] ∧
    "query_index out of range" ∉ attention_schema_errors attnMixedDoc :=
  ⟨by decide, by decide, by decide⟩

/-- **C8 (amended).** The grid, sequence, flow and graph validators run the
two layers in order and skip the cross-field layer whenever their
(filtered) structural layer reports an error — in that case the result is
exactly the structural layer's `Schema:`-prefixed messages.  The hash-table
validator has only a structural layer.  (The attention validator, by the
counterexample, runs both layers unconditionally.) -/
theorem variant_validators_skip_invariant_layer (ir : JVal) :
    (grid_schema_layer ir ≠ [] → validate_grid_ir ir = grid_schema_layer ir) ∧
    (sequence_schema_layer ir ≠ [] →
      validate_sequence_ir ir = sequence_schema_layer ir) ∧
    (flow_schema_layer ir ≠ [] → validate_flow_ir ir = flow_schema_layer ir) ∧
    (graph_schema_layer ir ≠ [] → validate_graph_ir ir = graph_schema_layer ir) ∧
    validate_hash_table_ir ir = (hash_table_schema_errors ir).map ("Schema: " ++ ·) := by
  refine ⟨fun h => ?_, fun h => ?_, fun h => ?_, fun h => ?_, rfl⟩
  · cases hE : grid_schema_layer ir with
    | nil => exact absurd hE h
    | cons a t => simp [validate_grid_ir, hE]
  · cases hE : sequence_schema_layer ir with
    | nil => exact absurd hE h
    | cons a t => simp [validate_sequence_ir, hE]
  · cases hE : flow_schema_layer ir with
    | nil => exact absurd hE h
    | cons a t => simp [validate_flow_ir, hE]
  · cases hE : graph_schema_layer ir with
    | nil => exact absurd hE h
    | cons a t => simp [validate_graph_ir, hE]

/-- Witness for the amended C8: the empty object has structural errors in
each validator, and each early-returns exactly its structural layer. -/
theorem variant_validators_skip_invariant_layer_witness :
    validate_grid_ir (.obj []) = grid_schema_layer (.obj []) ∧
    validate_sequence_ir (.obj []) = sequence_schema_layer (.obj []) ∧
    validate_flow_ir (.obj []) = flow_schema_layer (.obj []) ∧
    validate_graph_ir (.obj []) = graph_schema_layer (.obj []) ∧
    grid_schema_layer (.obj []) ≠ [] :=
  ⟨(variant_validators_skip_invariant_layer _).1 (by decide),
   (variant_validators_skip_invariant_layer _).2.1 (by decide),
   (variant_validators_skip_invariant_layer _).2.2.1 (by decide),
   (variant_validators_skip_invariant_layer _).2.2.2.1 (by decide),
   by decide⟩

/-! ### C3 — dangling references -/

/-- **C3 (counterexample).** A schema-valid sequence IR whose action
`target` references the nonexistent component id `"ghost"` is accepted by
`validate_sequence_ir` with an empty error list, contradicting the claim
that every variant validator rejects dangling references. -/
theorem validate_sequence_ir_accepts_dangling_reference :
    validate_sequence_ir seqDanglingDoc = [] ∧
    hasDanglingReference_spec seqDanglingDoc = true := by
  exact ⟨by decide, by decide⟩

/-- **C3 (amended).** Reference resolution is checked only by the base
pipeline validator: whenever a base IR document has an event carrying a
`from`/`to`/`target` value that matches no collected component id,
`invariants_errors` (and hence `validate_ir`) returns a non-empty error
list.  The six variant validators perform no reference checks at all (see
the counterexample). -/
theorem invariants_errors_rejects_dangling_reference (doc : JVal)
    (comps evts ids : List JVal) (i : ℕ) (efs : List (String × JVal))
    (k : String) (v : JVal) (errs : List String)
    (hc : getListField doc "components" = .ok comps)
    (hids : collectCompIds comps = .ok ids)
    (he : getListField doc "events" = .ok evts)
    (hmem : (i, JVal.obj efs) ∈ evts.enum)
    (hk : k ∈ (["from", "to", "target"] : List String))
    (hv : jlookup efs k = some v)
    (hany : ids.any (JVal.beq · v) = false)
    (hres : invariants_errors doc = .ok errs) :
    errs ≠ [] := by
  simp only [invariants_errors, hc, hids, he, except_bind_ok] at hres
  cases hdesc : tDescendScan evts with
  | error e => rw [hdesc] at hres; simp at hres
  | ok d =>
    rw [hdesc] at hres
    simp only [except_bind_ok] at hres
    cases href : refErrors ids evts.enum with
    | error e => rw [href] at hres; simp at hres
    | ok rs =>
      rw [href] at hres
      simp only [except_bind_ok, except_pure, Except.ok.injEq] at hres
      subst hres
      have hrs : rs ≠ [] :=
        refErrors_nonempty_of_dangling ids evts.enum i efs k v rs hmem hk hv hany href
      intro habs
      exact hrs (List.append_eq_nil.mp habs).2

/-- Witness for the amended C3: the dangling `from` reference of
`baseDanglingDoc` yields the expected non-empty error list. -/
theorem invariants_errors_rejects_dangling_reference_witness :
    (["event[0] references undefined \x27from\x27: arr9"] : List String) ≠ [] :=
  invariants_errors_rejects_dangling_reference baseDanglingDoc
    [.obj [("id", .str "a")]]
    [.obj [("t", .int 0), ("op", .str "compare"), ("from", .str "arr9")]]
    [.str "a"] 0
    [("t", .int 0), ("op", .str "compare"), ("from", .str "arr9")]
    "from" (.str "arr9")
    ["event[0] references undefined \x27from\x27: arr9"]
    rfl rfl rfl (List.mem_singleton.mpr rfl) (by decide) rfl (by decide) (by decide)

/-! ### C4 — duplicate ids -/

/-- **C4 (counterexample).** A schema-valid grid IR whose two components
both carry the id `"a"` is accepted by `validate_grid_ir` with an empty
error list, contradicting the claim that duplicate ids produce a non-empty
error list. -/
theorem validate_grid_ir_accepts_duplicate_ids :
    validate_grid_ir gridDupDoc = [] ∧
    hasDuplicateId_spec gridDupDoc = true := by
  exact ⟨by decide, by decide⟩

theorem collectCompIds_ok_obj (comps ids : List JVal) (x : JVal)
    (hok : collectCompIds comps = .ok ids) (hx : x ∈ comps) :
    ∃ cfs, x = JVal.obj cfs := by
  induction comps generalizing ids with
  | nil => cases hx
  | cons c rest ih =>
    cases c with
    | obj fs =>
      rcases List.mem_cons.mp hx with hc | hc
      · exact ⟨fs, hc⟩
      · simp only [collectCompIds] at hok
        cases hrest : collectCompIds rest with
        | error e => rw [hrest] at hok; simp at hok
        | ok ids₀ => exact ih ids₀ hrest hc
    | null => simp [collectCompIds] at hok
    | bool b => simp [collectCompIds] at hok
    | int n => simp [collectCompIds] at hok
    | float q => simp [collectCompIds] at hok
    | str s => simp [collectCompIds] at hok
    | arr l => simp [collectCompIds] at hok

theorem any_append_self_mem (ids : List JVal) (w : JVal) (hw : w ∈ ids) :
    ∀ v, (ids ++ [w]).any (JVal.beq · v) = ids.any (JVal.beq · v) := by
  intro v
  cases hfw : JVal.beq w v with
  | false => simp [List.any_append, hfw]
  | true =>
    have : ids.any (JVal.beq · v) = true := List.any_eq_true.mpr ⟨w, hw, hfw⟩
    simp [List.any_append, hfw, this]

/-- **C4 (amended).** No validation layer detects duplicate ids: a variant
validator accepts schema-valid documents with duplicated component ids (see
the counterexample), and the base invariant layer is insensitive to
duplication — appending a copy of an existing component to a base document
leaves `invariants_errors` unchanged. -/
theorem invariants_errors_ignores_duplicate_component
    (fs : List (String × JVal)) (comps : List JVal) (c : JVal)
    (hcomp : jlookup fs "components" = some (.arr comps))
    (hc : c ∈ comps) :
    invariants_errors (.obj (setKey fs "components" (.arr (comps ++ [c])))) =
      invariants_errors (.obj fs) := by
  have hlookL : getListField (.obj (setKey fs "components" (.arr (comps ++ [c]))))
      "components" = .ok (comps ++ [c]) := by
    simp [getListField, JVal.getD, jlookup_setKey_self]
  have hlookR : getListField (.obj fs) "components" = .ok comps := by
    simp [getListField, JVal.getD, hcomp]
  have hev : JVal.getD (.obj (setKey fs "components" (.arr (comps ++ [c]))))
      "events" (.arr []) = JVal.getD (.obj fs) "events" (.arr []) := by
    simp [JVal.getD, jlookup_setKey_other fs "components" "events" _ (by decide)]
  have hevL : getListField (.obj (setKey fs "components" (.arr (comps ++ [c]))))
      "events" = getListField (.obj fs) "events" := by
    simp [getListField, hev]
  simp only [invariants_errors, hlookL, hlookR, hevL, except_bind_ok]
  rw [collectCompIds_append]
  cases hids : collectCompIds comps with
  | error e => simp
  | ok ids =>
    obtain ⟨cfs, rfl⟩ := collectCompIds_ok_obj comps ids c hids hc
    simp only [collectCompIds]
    cases hid : jlookup cfs "id" with
    | none =>
      simp only [except_bind_ok, except_pure, List.append_nil]
    | some w =>
      have hw : w ∈ ids := collectCompIds_mem_id comps ids cfs w hids hc hid
      simp only [except_bind_ok, except_pure]
      cases getListField (.obj fs) "events" with
      | error e => simp
      | ok evts =>
        simp only [except_bind_ok]
        cases tDescendScan evts with
        | error e => simp
        | ok d =>
          simp only [except_bind_ok]
          rw [refErrors_congr_ids ids (ids ++ [w]) (any_append_self_mem ids w hw)]

/-- Witness for the amended C4 at a concrete base document. -/
theorem invariants_errors_ignores_duplicate_component_witness :
    invariants_errors (.obj (setKey
        [("components", .arr [.obj [("id", .str "a")]]), ("events", .arr [])]
        "components"
        (.arr ([.obj [("id", .str "a")]] ++ [.obj [("id", .str "a")]])))) =
      invariants_errors (.obj
        [("components", .arr [.obj [("id", .str "a")]]), ("events", .arr [])]) :=
  invariants_errors_ignores_duplicate_component
    [("components", .arr [.obj [("id", .str "a")]]), ("events", .arr [])]
    [.obj [("id", .str "a")]] (.obj [("id", .str "a")])
    rfl (List.mem_singleton.mpr rfl)


/-! ### C1 — staged IR generation retry contract -/

theorem getListField_no_valueError (doc : JVal) (key : String) (m : String) :
    getListField doc key ≠ .error (.valueError m) := by
  unfold getListField
  cases JVal.getD doc key (.arr []) <;> simp

theorem collectCompIds_no_valueError (xs : List JVal) (m : String) :
    collectCompIds xs ≠ .error (.valueError m) := by
  induction xs with
  | nil => simp [collectCompIds]
  | cons x rest ih =>
    cases x with
    | obj fs =>
      simp only [collectCompIds]
      cases hr : collectCompIds rest with
      | error e' =>
        simp only [except_bind_error]
        intro hh
        exact ih (hr.trans hh)
      | ok ids => cases jlookup fs "id" <;> simp
    | null => simp [collectCompIds]
    | bool b => simp [collectCompIds]
    | int n => simp [collectCompIds]
    | float q => simp [collectCompIds]
    | str s => simp [collectCompIds]
    | arr l => simp [collectCompIds]

theorem getT_no_valueError (e : JVal) (m : String) :
    getT e ≠ .error (.valueError m) := by
  unfold getT
  cases e <;> simp
  case obj fs => cases jlookup fs "t" <;> simp

theorem pyGt_no_valueError (a b : JVal) (m : String) :
    pyGt a b ≠ .error (.valueError m) := by
  unfold pyGt
  cases pyNumOf a <;> cases pyNumOf b <;> cases a <;> cases b <;> simp

theorem tDescendScan_no_valueError (evts : List JVal) (m : String) :
    tDescendScan evts ≠ .error (.valueError m) := by
  induction evts with
  | nil => simp [tDescendScan]
  | cons e1 rest ih =>
    cases rest with
    | nil => simp [tDescendScan]
    | cons e2 rest' =>
      simp only [tDescendScan]
      cases h1 : getT e1 with
      | error ex =>
        simp only [except_bind_error]
        intro hh
        have hEq : ex = PyExc.valueError m := by simpa using hh
        exact getT_no_valueError e1 m (hEq ▸ h1)
      | ok t1 =>
        simp only [except_bind_ok]
        cases h2 : getT e2 with
        | error ex =>
          simp only [except_bind_error]
          intro hh
          have hEq : ex = PyExc.valueError m := by simpa using hh
          exact getT_no_valueError e2 m (hEq ▸ h2)
        | ok t2 =>
          simp only [except_bind_ok]
          cases hg : pyGt t1 t2 with
          | error ex =>
            simp only [except_bind_error]
            intro hh
            have hEq : ex = PyExc.valueError m := by simpa using hh
            exact pyGt_no_valueError t1 t2 m (hEq ▸ hg)
          | ok g =>
            simp only [except_bind_ok]
            cases g with
            | true => simp
            | false => simpa using ih

theorem refErrors_no_valueError (ids : List JVal) (ps : List (ℕ × JVal))
    (m : String) : refErrors ids ps ≠ .error (.valueError m) := by
  induction ps with
  | nil => simp [refErrors]
  | cons p rest ih =>
    obtain ⟨i, ev⟩ := p
    cases ev with
    | obj efs =>
      simp only [refErrors]
      cases hr : refErrors ids rest with
      | error e' =>
        simp only [except_bind_ok, except_bind_error]
        intro hh
        exact ih (hr.trans hh)
      | ok rs => simp
    | null => simp [refErrors]
    | bool b => simp [refErrors]
    | int n => simp [refErrors]
    | float q => simp [refErrors]
    | str s => simp [refErrors]
    | arr l => simp [refErrors]

/-- `validate_ir` never raises `ValueError`; the terminal `ValueError` of
`generate_ir_with_validation` is therefore unambiguous. -/
theorem validate_ir_no_valueError (doc : JVal) (m : String) :
    validate_ir doc ≠ .error (.valueError m) := by
  simp only [validate_ir, invariants_errors]
  cases hc : getListField doc "components" with
  | error e' =>
    simp only [except_bind_error]
    intro hh
    have hEq : e' = PyExc.valueError m := by simpa using hh
    exact getListField_no_valueError doc "components" m (hEq ▸ hc)
  | ok comps =>
    simp only [except_bind_ok]
    cases hi : collectCompIds comps with
    | error e' =>
      simp only [except_bind_error]
      intro hh
      have hEq : e' = PyExc.valueError m := by simpa using hh
      exact collectCompIds_no_valueError comps m (hEq ▸ hi)
    | ok ids =>
      simp only [except_bind_ok]
      cases he : getListField doc "events" with
      | error e' =>
        simp only [except_bind_error]
        intro hh
        have hEq : e' = PyExc.valueError m := by simpa using hh
        exact getListField_no_valueError doc "events" m (hEq ▸ he)
      | ok evts =>
        simp only [except_bind_ok]
        cases hd : tDescendScan evts with
        | error e' =>
          simp only [except_bind_error]
          intro hh
          have hEq : e' = PyExc.valueError m := by simpa using hh
          exact tDescendScan_no_valueError evts m (hEq ▸ hd)
        | ok d =>
          simp only [except_bind_ok]
          cases hr : refErrors ids evts.enum with
          | error e' =>
            simp only [except_bind_error]
            intro hh
            have hEq : e' = PyExc.valueError m := by simpa using hh
            exact refErrors_no_valueError ids evts.enum m (hEq ▸ hr)
          | ok rs => simp

theorem genLoop_snd_ne_nil (gen : String → ℚ → JVal) (ut fb : String) (k : ℕ) :
    (genLoop gen ut fb k).2 ≠ [] := by
  cases k with
  | zero =>
    simp only [genLoop]
    cases validate_ir (gen (augmentPrompt ut fb) (mkRat 3 10)) with
    | error e => simp
    | ok errs => cases errs <;> simp
  | succ k =>
    simp only [genLoop]
    cases validate_ir (gen (augmentPrompt ut fb) (mkRat 0 1)) with
    | error e => simp
    | ok errs => cases errs <;> simp

theorem genLoop_retry_spec (gen : String → ℚ → JVal) (ut : String) :
    ∀ (k : ℕ) (fb : String),
    ((genLoop gen ut fb k).2.length ≤ k + 1) ∧
    (((genLoop gen ut fb k).2.map Prod.fst =
        List.replicate (genLoop gen ut fb k).2.length (mkRat 0 1) ∧
      (genLoop gen ut fb k).2.length ≤ k) ∨
     ((genLoop gen ut fb k).2.map Prod.fst =
        List.replicate k (mkRat 0 1) ++ [mkRat 3 10] ∧
      (genLoop gen ut fb k).2.length = k + 1)) ∧
    (∀ a ∈ (genLoop gen ut fb k).2.dropLast, ∃ errs, a.2 = .ok errs ∧ errs ≠ []) ∧
    (∀ doc, (genLoop gen ut fb k).1 = .ok doc → validate_ir doc = .ok []) ∧
    (∀ msg, (genLoop gen ut fb k).1 = .error (.valueError msg) →
      ∃ errs, errs ≠ [] ∧ msg = genFailureMsg errs ∧
        (genLoop gen ut fb k).2.map Prod.fst =
          List.replicate k (mkRat 0 1) ++ [mkRat 3 10]) := by
  intro k
  induction k with
  | zero =>
    intro fb
    simp only [genLoop]
    cases hv : validate_ir (gen (augmentPrompt ut fb) (mkRat 3 10)) with
    | error e =>
      refine ⟨by simp, Or.inr (by simp), by simp, by simp, ?_⟩
      intro msg hmsg
      have hEq : e = PyExc.valueError msg := by simpa using hmsg
      exact absurd (hEq ▸ hv) (validate_ir_no_valueError _ msg)
    | ok errs =>
      cases errs with
      | nil =>
        refine ⟨by simp, Or.inr (by simp), by simp, ?_, by simp⟩
        intro doc hdoc
        have hd : doc = gen (augmentPrompt ut fb) (mkRat 3 10) := by
          simpa using hdoc.symm
        rw [hd, hv]
      | cons e0 et =>
        refine ⟨by simp, Or.inr (by simp), by simp, by simp, ?_⟩
        intro msg hmsg
        exact ⟨e0 :: et, by simp, by simpa using hmsg.symm, by simp⟩
  | succ k ih =>
    intro fb
    simp only [genLoop]
    cases hv : validate_ir (gen (augmentPrompt ut fb) (mkRat 0 1)) with
    | error e =>
      refine ⟨by simp, Or.inl (by simp), by simp, by simp, ?_⟩
      intro msg hmsg
      have hEq : e = PyExc.valueError msg := by simpa using hmsg
      exact absurd (hEq ▸ hv) (validate_ir_no_valueError _ msg)
    | ok errs =>
      cases errs with
      | nil =>
        refine ⟨by simp, Or.inl (by simp), by simp, ?_, by simp⟩
        intro doc hdoc
        have hd : doc = gen (augmentPrompt ut fb) (mkRat 0 1) := by
          simpa using hdoc.symm
        rw [hd, hv]
      | cons e0 et =>
        simp only [List.isEmpty_cons, Bool.false_eq_true, if_false]
        have hlogne := genLoop_snd_ne_nil gen ut (mkFeedback (e0 :: et)) k
        obtain ⟨h1, h2, h3, h4, h5⟩ := ih (mkFeedback (e0 :: et))
        cases hG : genLoop gen ut (mkFeedback (e0 :: et)) k with
        | mk res' log' =>
          rw [hG] at h1 h2 h3 h4 h5 hlogne
          simp only at h1 h2 h3 h4 h5 hlogne ⊢
          refine ⟨?_, ?_, ?_, ?_, ?_⟩
          · simpa using Nat.succ_le_succ h1
          · rcases h2 with ⟨hmap, hlen⟩ | ⟨hmap, hlen⟩
            · exact Or.inl (by
                simp only [List.map_cons, hmap, List.length_cons]
                exact ⟨by simp [List.replicate_succ], Nat.succ_le_succ hlen⟩)
            · exact Or.inr (by
                simp only [List.map_cons, hmap, List.length_cons, hlen]
                exact ⟨by simp [List.replicate_succ], by simp⟩)
          · intro a ha
            simp only [List.dropLast_cons_of_ne_nil hlogne] at ha
            rcases List.mem_cons.mp ha with rfl | ha'
            · exact ⟨e0 :: et, rfl, by simp⟩
            · exact h3 a ha'
          · intro doc hdoc
            exact h4 doc (by simpa using hdoc)
          · intro msg hmsg
            obtain ⟨errs', hne, hm, hmap⟩ := h5 msg (by simpa using hmsg)
            refine ⟨errs', hne, hm, ?_⟩
            simp only [List.map_cons, hmap]
            simp [List.replicate_succ]

/-- **C1.** For every input text and every generator behaviour,
`generate_ir_with_validation` performs at most `max_retries_zero_temp + 1`
attempts at temperature 0 — accepting and returning the first document
whose validation error list is empty (every non-final attempt's list is
non-empty) — and, exactly when all zero-temperature attempts are used up,
one further attempt at temperature 0.3, then terminates: a returned
document validates with an empty error list, and a terminal `ValueError`
carries the full (non-empty) validation error list of the final
raised-temperature attempt.  The attempt log is never longer than
`max_retries_zero_temp + 2`, so the loop cannot diverge. -/
theorem generate_ir_with_validation_retry_contract
    (gen : String → ℚ → JVal) (user_text : String) (N : ℕ) :
    ((generate_ir_with_validation gen user_text N).2.length ≤ N + 2) ∧
    (((generate_ir_with_validation gen user_text N).2.map Prod.fst =
        List.replicate (generate_ir_with_validation gen user_text N).2.length
          (mkRat 0 1) ∧
      (generate_ir_with_validation gen user_text N).2.length ≤ N + 1) ∨
     ((generate_ir_with_validation gen user_text N).2.map Prod.fst =
        List.replicate (N + 1) (mkRat 0 1) ++ [mkRat 3 10] ∧
      (generate_ir_with_validation gen user_text N).2.length = N + 2)) ∧
    (∀ a ∈ (generate_ir_with_validation gen user_text N).2.dropLast,
      ∃ errs, a.2 = .ok errs ∧ errs ≠ []) ∧
    (∀ doc, (generate_ir_with_validation gen user_text N).1 = .ok doc →
      validate_ir doc = .ok []) ∧
    (∀ msg, (generate_ir_with_validation gen user_text N).1 =
        .error (.valueError msg) →
      ∃ errs, errs ≠ [] ∧ msg = genFailureMsg errs ∧
        (generate_ir_with_validation gen user_text N).2.map Prod.fst =
          List.replicate (N + 1) (mkRat 0 1) ++ [mkRat 3 10]) := by
  have h := genLoop_retry_spec gen user_text (N + 1) ""
  simpa [generate_ir_with_validation] using h

/-- Witness for C1: a generator that always returns the empty object makes
the pipeline perform `N + 1 = 2` zero-temperature attempts and one
raised-temperature attempt, then fail with the full error list. -/
theorem generate_ir_with_validation_retry_contract_witness :
    ∃ errs, errs ≠ [] ∧
      genFailureMsg ["\x27components\x27 is a required property at []",
                     "\x27events\x27 is a required property at []"] =
        genFailureMsg errs ∧
      (generate_ir_with_validation genAlwaysInvalid "sort [3,1]" 1).2.map Prod.fst =
        List.replicate 2 (mkRat 0 1) ++ [mkRat 3 10] :=
  (generate_ir_with_validation_retry_contract genAlwaysInvalid "sort [3,1]" 1).2.2.2.2
    _ rfl

/-! ### C2: the render fallback contract -/

theorem getLast?_cons_of_ne_nil {α : Type} (a : α) (l : List α) (h : l ≠ []) :
    (a :: l).getLast? = l.getLast? := by
  cases l with
  | nil => exact absurd rfl h
  | cons b t => exact List.getLast?_cons_cons

/-- Prepending one failed primary invocation to a decomposed run decomposes
the run with one more primary attempt available. -/
theorem renderDecomp_cons (o : RenderOutcome) (code : String)
    (ho : o ≠ RenderOutcome.okFile) (res : Option String)
    (log : List RenderCall) (r : ℕ) (h : RenderDecomp res log r) :
    RenderDecomp res (⟨code, 180, o⟩ :: log) (r + 1) := by
  obtain ⟨primary, fb, hlog, hne, hlen, htmo, hfbs, hiff, hsome⟩ := h
  refine ⟨⟨code, 180, o⟩ :: primary, fb, by simp [hlog], by simp, ?_, ?_, hfbs,
    ?_, ?_⟩
  · simpa using Nat.succ_le_succ hlen
  · intro c hc
    rcases List.mem_cons.mp hc with rfl | hc'
    · rfl
    · exact htmo c hc'
  · rw [hiff, getLast?_cons_of_ne_nil _ _ hne]
    constructor
    · rintro ⟨hl, hc⟩
      exact ⟨by simp [hl], hc⟩
    · rintro ⟨hl, hc⟩
      exact ⟨by simpa using hl, hc⟩
  · rw [hsome]
    simp only [List.mem_cons]
    constructor
    · rintro ⟨c, hc, hp⟩
      exact ⟨c, Or.inr hc, hp⟩
    · rintro ⟨c, rfl | hc, hp⟩
      · exact absurd hp ho
      · exact ⟨c, hc, hp⟩

/-- Every run of the render loop with at least one attempt decomposes as in
`RenderDecomp`. -/
theorem renderGo_decomp (engine : ℕ → String → ℕ → RenderOutcome)
    (codegen : ℕ → String) :
    ∀ (r : ℕ), 1 ≤ r → ∀ (attempt idx : ℕ) (code : String),
      RenderDecomp (renderGo engine codegen r attempt code idx).1
        (renderGo engine codegen r attempt code idx).2 r := by
  intro r
  induction r with
  | zero => intro h attempt idx code; exact absurd h (by omega)
  | succ n ih =>
    intro _h attempt idx code
    cases hout : engine idx code 180 with
    | okFile =>
      simp only [renderGo, hout]
      exact ⟨[⟨code, 180, .okFile⟩], [], rfl, by simp,
        by simp, by simp,
        Or.inl rfl, by simp, by simp⟩
    | okNoFile =>
      simp only [renderGo, hout]
      cases hG : renderGo engine codegen n (attempt + 1) code (idx + 1) with
      | mk res' log' =>
        simp only
        cases n with
        | zero =>
          simp only [renderGo, Prod.mk.injEq] at hG
          obtain ⟨h1, h2⟩ := hG
          subst h1; subst h2
          exact ⟨[⟨code, 180, .okNoFile⟩], [], rfl, by simp, by simp, by simp,
            Or.inl rfl, by simp, by simp⟩
        | succ m =>
          have key := ih (by omega) (attempt + 1) (idx + 1) code
          rw [hG] at key
          simp only at key
          exact renderDecomp_cons .okNoFile code (by simp) res' log' (m + 1) key
    | procError =>
      simp only [renderGo, hout]
      cases n with
      | zero =>
        simp only [if_pos rfl]
        cases hfb : engine (idx + 1) fallback_code 60 <;>
          exact ⟨[⟨code, 180, .procError⟩], [⟨fallback_code, 60, _⟩], rfl,
            by simp, by simp, by simp, Or.inr ⟨_, rfl, rfl, rfl⟩, by simp,
            by simp [hfb]⟩
      | succ m =>
        simp only [Nat.succ_ne_zero, if_false]
        cases hG : renderGo engine codegen (m + 1) (attempt + 1)
            (codegen attempt) (idx + 1) with
        | mk res' log' =>
          simp only
          have key := ih (by omega) (attempt + 1) (idx + 1) (codegen attempt)
          rw [hG] at key
          simp only at key
          exact renderDecomp_cons .procError code (by simp) res' log' (m + 1) key
    | timeout =>
      simp only [renderGo, hout]
      cases n with
      | zero =>
        simp only [if_pos rfl]
        cases hfb : engine (idx + 1) fallback_code 60 <;>
          exact ⟨[⟨code, 180, .timeout⟩], [⟨fallback_code, 60, _⟩], rfl,
            by simp, by simp, by simp, Or.inr ⟨_, rfl, rfl, rfl⟩, by simp,
            by simp [hfb]⟩
      | succ m =>
        simp only [Nat.succ_ne_zero, if_false]
        cases hG : renderGo engine codegen (m + 1) (attempt + 1)
            (codegen attempt) (idx + 1) with
        | mk res' log' =>
          simp only
          have key := ih (by omega) (attempt + 1) (idx + 1) (codegen attempt)
          rw [hG] at key
          simp only at key
          exact renderDecomp_cons .timeout code (by simp) res' log' (m + 1) key

/-- Counterexample for C2: a render engine that always exits cleanly with
the artifact missing at the predictable path makes all three attempts fail,
yet the controller never substitutes the fallback source and never invokes
the engine with the short timeout — it returns no video path after three
primary invocations of the same source. -/
theorem render_controller_missing_artifact_skips_fallback :
    (render_controller engineCleanNoArtifact codegenConst "code").1 = none ∧
    (render_controller engineCleanNoArtifact codegenConst "code").2 =
      [⟨"code", 180, .okNoFile⟩, ⟨"code", 180, .okNoFile⟩,
       ⟨"code", 180, .okNoFile⟩] ∧
    ∀ c ∈ (render_controller engineCleanNoArtifact codegenConst "code").2,
      ¬(c.src = fallback_code ∨ c.tmo = 60) := by
  refine ⟨rfl, rfl, ?_⟩
  decide

/-- **C2 (amended).** Every run of the render controller makes a non-empty
block of at most three primary engine invocations (timeout 180s), followed
by at most one fallback invocation — timeout 60s on the constant fallback
source, never retried (it is the last log entry).  The fallback happens
exactly when all three primary attempts were used and the third raised
(non-zero exit or timeout): a clean exit with the artifact missing
(`okNoFile`) on the last attempt does NOT trigger the fallback.  The
controller terminates returning `some` path exactly when some logged
invocation produced the artifact, and never raises. -/
theorem render_controller_fallback_contract
    (engine : ℕ → String → ℕ → RenderOutcome) (codegen : ℕ → String)
    (initial_code : String) :
    ∃ primary fb,
      (render_controller engine codegen initial_code).2 = primary ++ fb ∧
      primary ≠ [] ∧
      primary.length ≤ 3 ∧
      (∀ c ∈ primary, c.tmo = 180) ∧
      (fb = [] ∨ ∃ fc, fb = [fc] ∧ fc.tmo = 60 ∧ fc.src = fallback_code) ∧
      (fb ≠ [] ↔ primary.length = 3 ∧ ∃ c, primary.getLast? = some c ∧
        (c.outcome = .procError ∨ c.outcome = .timeout)) ∧
      ((render_controller engine codegen initial_code).1.isSome ↔
        ∃ c ∈ (render_controller engine codegen initial_code).2,
          c.outcome = .okFile) :=
  renderGo_decomp engine codegen 3 (by omega) 1 0 initial_code

/-- **C6.** The sanitization transform is NOT idempotent: on the input line
`AddPointToGraph(1)` one application yields the 8-space-indented
`self.wait(0.1)` replacement line, and a second application strips that
leading indentation (the `strip()` step runs before the helper-call
substitution inserts indented text), so applying the sanitizer twice
differs from applying it once. -/
theorem sanitize_code_not_idempotent :
    sanitize_code (sanitize_code helperLineInput) ≠
      sanitize_code helperLineInput ∧
    sanitize_code helperLineInput = "        self.wait(0.1)".toList ∧
    sanitize_code (sanitize_code helperLineInput) = "self.wait(0.1)".toList :=
  ⟨by decide, rfl, rfl⟩

/-! ### C7: the scene-class renaming pass -/

theorem scanSub_nil (tryM : Option Char → List Char → Option (List Char × ℕ)) :
    ∀ (fuel : ℕ) (prev : Option Char), scanSub tryM fuel prev [] = [] := by
  intro fuel prev
  cases fuel with
  | zero => rfl
  | succ f => rfl

/-- If the matcher fails on every non-empty suffix of the input, the scan is
the identity. -/
theorem scanSub_eq_self (tryM : Option Char → List Char → Option (List Char × ℕ)) :
    ∀ (fuel : ℕ) (prev : Option Char) (s : List Char),
      (∀ (prev' : Option Char) (t : List Char), t ≠ [] → t.IsSuffix s →
        tryM prev' t = none) →
      scanSub tryM fuel prev s = s := by
  intro fuel
  induction fuel with
  | zero => intro prev s _; rfl
  | succ f ih =>
    intro prev s H
    cases s with
    | nil => rfl
    | cons c t =>
      have hc : tryM prev (c :: t) = none :=
        H prev (c :: t) (by simp) List.suffix_rfl
      simp only [scanSub, hc]
      rw [ih (some c) t]
      intro prev' u hu hsuf
      exact H prev' u hu (hsuf.trans (List.suffix_cons c t))

/-- If the matcher consumes the whole input at position 0, the scan returns
exactly the replacement. -/
theorem scanSub_all (tryM : Option Char → List Char → Option (List Char × ℕ))
    (s : List Char) (hs : s ≠ []) (repl : List Char)
    (h : tryM none s = some (repl, s.length)) :
    runSub tryM s = repl := by
  cases s with
  | nil => exact absurd rfl hs
  | cons c t =>
    rw [List.length_cons] at h
    show scanSub tryM (c :: t).length none (c :: t) = repl
    rw [List.length_cons]
    simp only [scanSub, h, List.drop_succ_cons, List.drop_length, scanSub_nil,
      List.append_nil]

theorem takeWhile_append_all (p : Char → Bool) (l₁ l₂ : List Char)
    (h : ∀ c ∈ l₁, p c = true) :
    (l₁ ++ l₂).takeWhile p = l₁ ++ l₂.takeWhile p := by
  induction l₁ with
  | nil => simp
  | cons a l ih =>
    simp only [List.cons_append, List.takeWhile_cons, h a (by simp), if_true]
    rw [ih fun c hc => h c (by simp [hc])]

theorem dropWhile_append_all (p : Char → Bool) (l₁ l₂ : List Char)
    (h : ∀ c ∈ l₁, p c = true) :
    (l₁ ++ l₂).dropWhile p = l₂.dropWhile p := by
  induction l₁ with
  | nil => simp
  | cons a l ih =>
    simp only [List.cons_append, List.dropWhile_cons, h a (by simp), if_true]
    exact ih fun c hc => h c (by simp [hc])

theorem takeWhile_nil_of_all (p : Char → Bool) (l : List Char)
    (h : ∀ c ∈ l, p c = false) : l.takeWhile p = [] := by
  cases l with
  | nil => rfl
  | cons a t => simp [List.takeWhile_cons, h a (by simp)]

theorem dropWhile_eq_self_of_all (p : Char → Bool) (l : List Char)
    (h : ∀ c ∈ l, p c = false) : l.dropWhile p = l := by
  cases l with
  | nil => rfl
  | cons a t => simp [List.dropWhile_cons, h a (by simp)]

theorem isPyWS_eq_false_of_isWordChar (c : Char) (h : isWordChar c = true) :
    isPyWS c = false := by
  by_contra hws
  have hws' : isPyWS c = true := by
    cases hpw : isPyWS c
    · exact absurd hpw hws
    · rfl
  simp only [isPyWS, Bool.or_eq_true, decide_eq_true_eq] at hws'
  rcases hws' with ((((rfl | rfl) | rfl) | rfl) | rfl) | rfl <;>
    simp [isWordChar] at h

/-- `matchClass` fails on any text containing no whitespace character. -/
theorem matchClass_none_of_no_ws (prev : Option Char) (s : List Char)
    (h : ∀ c ∈ s, isPyWS c = false) : matchClass prev s = none := by
  by_cases hp : ("class".toList.isPrefixOf s) = true
  · have hws : (s.drop 5).takeWhile isPyWS = [] :=
      takeWhile_nil_of_all _ _ fun c hc => h c (List.drop_subset 5 s hc)
    simp [matchClass, hp, hws]
  · have hp' : ("class".toList.isPrefixOf s) = false := by
      cases hpp : "class".toList.isPrefixOf s
      · rfl
      · exact absurd hpp hp
    simp only [matchClass, hp']
    simp

theorem suffix_append_cases {t l r : List Char} (h : t.IsSuffix (l ++ r)) :
    t.IsSuffix r ∨ ∃ u, u.IsSuffix l ∧ u ≠ [] ∧ t = u ++ r := by
  obtain ⟨p, hp⟩ := h
  have hlen : p.length + t.length = l.length + r.length := by
    have := congrArg List.length hp
    simpa using this
  by_cases hle : t.length ≤ r.length
  · left
    have hplen : l.length ≤ p.length := by omega
    have ht : t = (l ++ r).drop p.length := by
      rw [← hp, List.drop_left]
    have : (l ++ r).drop p.length = r.drop (p.length - l.length) := by
      have h2 : p.length = l.length + (p.length - l.length) := by omega
      conv_lhs => rw [h2]
      rw [List.drop_append]
    rw [ht, this]
    exact List.drop_suffix _ _
  · right
    have hplt : p.length < l.length := by omega
    refine ⟨l.drop p.length, List.drop_suffix _ _, ?_, ?_⟩
    · intro hnil
      have := congrArg List.length hnil
      simp only [List.length_drop, List.length_nil] at this
      omega
    · have ht : t = (l ++ r).drop p.length := by
        rw [← hp, List.drop_left]
      rw [ht, List.drop_append_of_le_length (by omega)]

theorem suffix_of_classSpace (u : List Char) (h : u.IsSuffix "class ".toList) :
    u = [] ∨ u = [' '] ∨ u = ['s', ' '] ∨ u = ['s', 's', ' '] ∨
    u = ['a', 's', 's', ' '] ∨ u = ['l', 'a', 's', 's', ' '] ∨
    u = "class ".toList := by
  have hu : u ∈ ("class ".toList).tails := (List.mem_tails u _).mpr h
  have htails : ("class ".toList).tails =
      ["class ".toList, ['l', 'a', 's', 's', ' '], ['a', 's', 's', ' '],
       ['s', 's', ' '], ['s', ' '], [' '], []] := rfl
  rw [htails] at hu
  simp only [List.mem_cons, List.mem_singleton, List.not_mem_nil] at hu
  tauto

theorem forceClassName_keeps_aux (B : List Char)
    (hBw : ∀ c ∈ B, isWordChar c = true)
    (hB : ¬(6 ≤ B.length ∧ B.drop (B.length - 5) = "Scene".toList)) :
    forceClassName ("class ".toList ++ (B ++ "(Scene)".toList)) =
      "class ".toList ++ (B ++ "(Scene)".toList) := by
  have hparen : ∀ c ∈ ("(Scene)".toList : List Char), isPyWS c = false := by
    decide
  have hXall : ∀ c ∈ B ++ "(Scene)".toList, isPyWS c = false := by
    intro c hc
    rcases List.mem_append.mp hc with hc | hc
    · exact isPyWS_eq_false_of_isWordChar c (hBw c hc)
    · exact hparen c hc
  apply scanSub_eq_self
  intro prev' t htne hsuf
  rcases suffix_append_cases hsuf with hsufr | ⟨u, hu, hune, rfl⟩
  · exact matchClass_none_of_no_ws prev' t fun c hc => hXall c (hsufr.subset hc)
  · rcases suffix_of_classSpace u hu with rfl | rfl | rfl | rfl | rfl | rfl | rfl
    · exact absurd rfl hune
    · rfl
    · rfl
    · rfl
    · rfl
    · rfl
    · have hpre : ("class".toList.isPrefixOf
          ("class ".toList ++ (B ++ "(Scene)".toList))) = true := rfl
      have hdrop : ("class ".toList ++ (B ++ "(Scene)".toList)).drop 5 =
          ' ' :: (B ++ "(Scene)".toList) := rfl
      have hwsSp : isPyWS ' ' = true := rfl
      have htwX : (B ++ "(Scene)".toList).takeWhile isPyWS = [] :=
        takeWhile_nil_of_all _ _ hXall
      have hdwX : (B ++ "(Scene)".toList).dropWhile isPyWS =
          B ++ "(Scene)".toList := dropWhile_eq_self_of_all _ _ hXall
      have hw : (B ++ "(Scene)".toList).takeWhile isWordChar = B := by
        rw [takeWhile_append_all _ _ _ hBw,
            show ("(Scene)".toList.takeWhile isWordChar) = [] from rfl,
            List.append_nil]
      simp [matchClass, hpre, hdrop, hwsSp, htwX, hdwX, hw, hB]
      intro h6 hdEq
      have hdwL : List.dropWhile isPyWS
          (B ++ ['(', 'S', 'c', 'e', 'n', 'e', ')']) =
          B ++ ['(', 'S', 'c', 'e', 'n', 'e', ')'] := hdwX
      have hwL : List.takeWhile isWordChar
          (B ++ ['(', 'S', 'c', 'e', 'n', 'e', ')']) = B := hw
      rw [hdwL, hwL] at h6 hdEq
      exact absurd ⟨h6, hdEq⟩ hB

theorem forceClassName_renames_aux (A : List Char) (hA : A ≠ [])
    (hAw : ∀ c ∈ A, isWordChar c = true) :
    forceClassName ("class ".toList ++ (A ++ "Scene(Scene)".toList)) =
      "class AlgorithmScene(Scene)".toList := by
  have hsceneW : ∀ c ∈ (['S', 'c', 'e', 'n', 'e'] : List Char),
      isWordChar c = true := by decide
  have hword : ∀ c ∈ A ++ ['S', 'c', 'e', 'n', 'e'], isWordChar c = true := by
    intro c hc
    rcases List.mem_append.mp hc with hc | hc
    · exact hAw c hc
    · exact hsceneW c hc
  have hsceneNoWS : ∀ c ∈
      (['S', 'c', 'e', 'n', 'e', '(', 'S', 'c', 'e', 'n', 'e', ')'] : List Char),
      isPyWS c = false := by decide
  have hXall : ∀ c ∈
      A ++ ['S', 'c', 'e', 'n', 'e', '(', 'S', 'c', 'e', 'n', 'e', ')'],
      isPyWS c = false := by
    intro c hc
    rcases List.mem_append.mp hc with hc | hc
    · exact isPyWS_eq_false_of_isWordChar c (hAw c hc)
    · exact hsceneNoWS c hc
  have htwX : (A ++ ['S', 'c', 'e', 'n', 'e', '(', 'S', 'c', 'e', 'n', 'e', ')']).takeWhile
      isPyWS = [] := takeWhile_nil_of_all _ _ hXall
  have hdwX : (A ++ ['S', 'c', 'e', 'n', 'e', '(', 'S', 'c', 'e', 'n', 'e', ')']).dropWhile
      isPyWS = A ++ ['S', 'c', 'e', 'n', 'e', '(', 'S', 'c', 'e', 'n', 'e', ')'] :=
    dropWhile_eq_self_of_all _ _ hXall
  have hasc : A ++ ['S', 'c', 'e', 'n', 'e', '(', 'S', 'c', 'e', 'n', 'e', ')'] =
      (A ++ ['S', 'c', 'e', 'n', 'e']) ++ ['(', 'S', 'c', 'e', 'n', 'e', ')'] := by
    rw [List.append_assoc]
    rfl
  have hw : (A ++ ['S', 'c', 'e', 'n', 'e', '(', 'S', 'c', 'e', 'n', 'e', ')']).takeWhile
      isWordChar = A ++ ['S', 'c', 'e', 'n', 'e'] := by
    rw [hasc, takeWhile_append_all _ _ _ hword,
        show (List.takeWhile isWordChar ['(', 'S', 'c', 'e', 'n', 'e', ')']) = []
          from rfl, List.append_nil]
  have hdw2 : (A ++ ['S', 'c', 'e', 'n', 'e', '(', 'S', 'c', 'e', 'n', 'e', ')']).dropWhile
      isWordChar = ['(', 'S', 'c', 'e', 'n', 'e', ')'] := by
    rw [hasc, dropWhile_append_all _ _ _ hword]
    rfl
  have hlenw : (A ++ ['S', 'c', 'e', 'n', 'e'] : List Char).length = A.length + 5 := by
    simp
  have hA1 : 1 ≤ A.length := by
    cases A with
    | nil => exact absurd rfl hA
    | cons a t => simp
  have h6le : 6 ≤ (A ++ ['S', 'c', 'e', 'n', 'e'] : List Char).length := by
    rw [hlenw]; omega
  have hdropw : (A ++ ['S', 'c', 'e', 'n', 'e'] : List Char).drop
      ((A ++ ['S', 'c', 'e', 'n', 'e'] : List Char).length - 5) =
      ['S', 'c', 'e', 'n', 'e'] := by
    rw [hlenw, show A.length + 5 - 5 = A.length from by omega]
    exact List.drop_left A ['S', 'c', 'e', 'n', 'e']
  have hpre : ("class".toList.isPrefixOf
      ("class ".toList ++ (A ++ "Scene(Scene)".toList))) = true := rfl
  have hdrop : ("class ".toList ++ (A ++ "Scene(Scene)".toList)).drop 5 =
      ' ' :: (A ++ ['S', 'c', 'e', 'n', 'e', '(', 'S', 'c', 'e', 'n', 'e', ')']) := rfl
  have hwsSp : isPyWS ' ' = true := rfl
  have hlen0 : ("class ".toList ++ (A ++ "Scene(Scene)".toList)).length =
      A.length + 18 := by
    simp
  have hm : matchClass none ("class ".toList ++ (A ++ "Scene(Scene)".toList)) =
      some ("class AlgorithmScene(Scene)".toList,
        ("class ".toList ++ (A ++ "Scene(Scene)".toList)).length) := by
    rw [hlen0]
    simp [matchClass, hpre, hdrop, hwsSp, htwX, hdwX, hw, hdw2, h6le, hdropw,
      hlenw]
    refine ⟨hA, by decide, ?_⟩
    rw [show (List.takeWhile isPyWS ['(', 'S', 'c', 'e', 'n', 'e', ')']) = []
      from rfl]
    simp
    omega
  apply scanSub_all
  · simp
  · exact hm

set_option maxRecDepth 4000 in
/-- Counterexample for C7: the generated source `class Foo(Scene): ...`
declares a `Scene`-extending class whose name does not end in `Scene`; the
full sanitization leaves it completely unchanged — the entry-point class of
the sanitized output is still named `Foo`, not `AlgorithmScene`. -/
theorem sanitize_code_keeps_nonScene_class_name :
    sanitize_code fooSceneInput = fooSceneInput ∧
    "class Foo(Scene)".toList.IsInfix (sanitize_code fooSceneInput) ∧
    ¬ "AlgorithmScene".toList.IsInfix (sanitize_code fooSceneInput) := by
  refine ⟨rfl, by decide, by decide⟩

/-- **C7 (amended).** The scene-class renaming pass rewrites a class
declaration extending `Scene` to `class AlgorithmScene(Scene)` exactly when
the declared name itself ends in `Scene`: for every non-empty word-character
name `A ++ Scene` the declaration is renamed, while for every word-character
name `B` that does not have at least one character followed by the `Scene`
suffix the declaration is left untouched — so a generated class name not
ending in `Scene` is NOT forced to the required name. -/
theorem forceClassName_renames_only_Scene_suffix (A B : List Char)
    (hA : A ≠ []) (hAw : ∀ c ∈ A, isWordChar c = true)
    (hBw : ∀ c ∈ B, isWordChar c = true)
    (hB : ¬(6 ≤ B.length ∧ B.drop (B.length - 5) = "Scene".toList)) :
    forceClassName ("class ".toList ++ (A ++ "Scene(Scene)".toList)) =
      "class AlgorithmScene(Scene)".toList ∧
    forceClassName ("class ".toList ++ (B ++ "(Scene)".toList)) =
      "class ".toList ++ (B ++ "(Scene)".toList) :=
  ⟨forceClassName_renames_aux A hA hAw, forceClassName_keeps_aux B hBw hB⟩

/-- Witness for C7: `class MyScene(Scene)` is renamed to
`class AlgorithmScene(Scene)`, while `class Foo(Scene)` is kept. -/
theorem forceClassName_renames_only_Scene_suffix_witness :
    forceClassName ("class ".toList ++ ("My".toList ++ "Scene(Scene)".toList)) =
      "class AlgorithmScene(Scene)".toList ∧
    forceClassName ("class ".toList ++ ("Foo".toList ++ "(Scene)".toList)) =
      "class ".toList ++ ("Foo".toList ++ "(Scene)".toList) :=
  forceClassName_renames_only_Scene_suffix "My".toList "Foo".toList
    (by decide) (by decide) (by decide) (by decide)

/-! ### C10: the bubble-sort trace expansion -/

theorem applySwapEvents_nil (l : List ℤ) : applySwapEvents l [] = l := rfl

theorem applySwapEvents_cons (l : List ℤ) (e : BEvent) (es : List BEvent) :
    applySwapEvents l (e :: es) = applySwapEvents (swapAdj e.j l) es := rfl

theorem applySwapEvents_append (l : List ℤ) (u v : List BEvent) :
    applySwapEvents l (u ++ v) = applySwapEvents (applySwapEvents l u) v :=
  List.foldl_append _ _ _ _

theorem swapAdj_at (pre : List ℤ) (a b : ℤ) (t : List ℤ) :
    swapAdj pre.length (pre ++ a :: b :: t) = pre ++ b :: a :: t := by
  induction pre with
  | nil => rfl
  | cons p ps ih =>
    show swapAdj (ps.length + 1) (p :: (ps ++ a :: b :: t)) = _
    simp only [swapAdj, ih, List.cons_append]

theorem passGo_perm (c : ℕ) :
    ∀ (l : List ℤ) (j step : ℕ), (passGo l j c step).1.Perm l := by
  induction c with
  | zero =>
    intro l j step
    simp only [passGo]
    exact List.Perm.refl l
  | succ c ih =>
    intro l j step
    match l with
    | [] =>
      simp only [passGo]
      exact List.Perm.refl _
    | [a] =>
      simp only [passGo]
      exact List.Perm.refl _
    | a :: b :: t =>
      by_cases h : a > b
      · cases hP : passGo (a :: t) (j + 1) c step with
        | mk r es =>
          have hp := ih (a :: t) (j + 1) step
          rw [hP] at hp
          simp only [passGo, h, if_true, hP]
          exact (hp.cons b).trans (List.Perm.swap a b t)
      · cases hP : passGo (b :: t) (j + 1) c step with
        | mk r es =>
          have hp := ih (b :: t) (j + 1) step
          rw [hP] at hp
          simp only [passGo, h, if_false, hP]
          exact hp.cons a

theorem passGo_events (c : ℕ) :
    ∀ (l : List ℤ) (j step : ℕ), ∀ e ∈ (passGo l j c step).2,
      e.step = step ∧ (e.op = "compare" ∨ e.op = "swap") := by
  induction c with
  | zero =>
    intro l j step e he
    simp only [passGo] at he
    exact absurd he (List.not_mem_nil e)
  | succ c ih =>
    intro l j step e he
    match l with
    | [] =>
      simp only [passGo] at he
      exact absurd he (List.not_mem_nil e)
    | [a] =>
      simp only [passGo] at he
      exact absurd he (List.not_mem_nil e)
    | a :: b :: t =>
      by_cases h : a > b
      · cases hP : passGo (a :: t) (j + 1) c step with
        | mk r es =>
          have hev := ih (a :: t) (j + 1) step
          rw [hP] at hev
          simp only [passGo, h, if_true, hP, List.mem_cons] at he
          rcases he with rfl | rfl | he'
          · exact ⟨rfl, Or.inl rfl⟩
          · exact ⟨rfl, Or.inr rfl⟩
          · exact hev e he'
      · cases hP : passGo (b :: t) (j + 1) c step with
        | mk r es =>
          have hev := ih (b :: t) (j + 1) step
          rw [hP] at hev
          simp only [passGo, h, if_false, hP, List.mem_cons] at he
          rcases he with rfl | he'
          · exact ⟨rfl, Or.inl rfl⟩
          · exact hev e he'

theorem passGo_replay (c : ℕ) :
    ∀ (l : List ℤ) (j step : ℕ) (pre : List ℤ), pre.length = j →
      applySwapEvents (pre ++ l)
        ((passGo l j c step).2.filter (fun e => e.op = "swap")) =
      pre ++ (passGo l j c step).1 := by
  induction c with
  | zero =>
    intro l j step pre hpre
    simp only [passGo, List.filter_nil, applySwapEvents_nil]
  | succ c ih =>
    intro l j step pre hpre
    match l with
    | [] => simp only [passGo, List.filter_nil, applySwapEvents_nil]
    | [a] => simp only [passGo, List.filter_nil, applySwapEvents_nil]
    | a :: b :: t =>
      by_cases h : a > b
      · cases hP : passGo (a :: t) (j + 1) c step with
        | mk r es =>
          have hrep := ih (a :: t) (j + 1) step (pre ++ [b]) (by simp [hpre])
          rw [hP] at hrep
          simp only [passGo, h, if_true, hP]
          simp only [List.filter_cons]
          have hcmp : (BEvent.mk "compare" j step).op = "swap" ↔ False := by
            simp
          have hswp : (BEvent.mk "swap" j step).op = "swap" ↔ True := by
            simp
          simp only [hcmp, hswp, decide_False, decide_True, Bool.false_eq_true,
            if_false, if_true, applySwapEvents_cons]
          have hsw : swapAdj (BEvent.mk "swap" j step).j (pre ++ a :: b :: t) =
              pre ++ b :: a :: t := by
            have := swapAdj_at pre a b t
            rw [hpre] at this
            exact this
          rw [hsw]
          calc applySwapEvents (pre ++ b :: a :: t)
                (List.filter (fun e => decide (e.op = "swap")) es)
              = applySwapEvents ((pre ++ [b]) ++ a :: t)
                (List.filter (fun e => decide (e.op = "swap")) es) := by
                simp
            _ = (pre ++ [b]) ++ r := hrep
            _ = pre ++ b :: r := by simp
      · cases hP : passGo (b :: t) (j + 1) c step with
        | mk r es =>
          have hrep := ih (b :: t) (j + 1) step (pre ++ [a]) (by simp [hpre])
          rw [hP] at hrep
          simp only [passGo, h, if_false, hP]
          simp only [List.filter_cons]
          have hcmp : (BEvent.mk "compare" j step).op = "swap" ↔ False := by
            simp
          simp only [hcmp, decide_False, Bool.false_eq_true, if_false]
          calc applySwapEvents (pre ++ a :: b :: t)
                (List.filter (fun e => decide (e.op = "swap")) es)
              = applySwapEvents ((pre ++ [a]) ++ b :: t)
                (List.filter (fun e => decide (e.op = "swap")) es) := by
                simp
            _ = (pre ++ [a]) ++ r := hrep
            _ = pre ++ a :: r := by simp

theorem passGo_max (c : ℕ) :
    ∀ (l : List ℤ) (j step : ℕ), l.length = c + 1 →
      ∃ r₀ M, (passGo l j c step).1 = r₀ ++ [M] ∧ r₀.length = c ∧
        ∀ x ∈ r₀, x ≤ M := by
  induction c with
  | zero =>
    intro l j step hl
    match l, hl with
    | [a], _ =>
      simp only [passGo]
      exact ⟨[], a, rfl, rfl, by simp⟩
  | succ c ih =>
    intro l j step hl
    match l, hl with
    | a :: b :: t, hl =>
      have hlen : (a :: t).length = c + 1 := by
        simpa using Nat.succ_injective (by simpa using hl)
      have hlenb : (b :: t).length = c + 1 := by simpa using hlen
      by_cases h : a > b
      · obtain ⟨r₀, M, hr, hrl, hmax⟩ := ih (a :: t) (j + 1) step hlen
        have hperm := passGo_perm c (a :: t) (j + 1) step
        rw [hr] at hperm
        have haM : a ≤ M := by
          have ha : a ∈ r₀ ++ [M] := hperm.mem_iff.mpr (by simp)
          rcases List.mem_append.mp ha with ha | ha
          · exact hmax a ha
          · simp at ha; omega
        cases hP : passGo (a :: t) (j + 1) c step with
        | mk r es =>
          rw [hP] at hr
          simp only at hr
          simp only [passGo, h, if_true, hP]
          refine ⟨b :: r₀, M, by simp [hr], by simp [hrl], ?_⟩
          intro x hx
          rcases List.mem_cons.mp hx with rfl | hx'
          · omega
          · exact hmax x hx'
      · obtain ⟨r₀, M, hr, hrl, hmax⟩ := ih (b :: t) (j + 1) step hlenb
        have hperm := passGo_perm c (b :: t) (j + 1) step
        rw [hr] at hperm
        have hbM : b ≤ M := by
          have hb : b ∈ r₀ ++ [M] := hperm.mem_iff.mpr (by simp)
          rcases List.mem_append.mp hb with hb | hb
          · exact hmax b hb
          · simp at hb; omega
        cases hP : passGo (b :: t) (j + 1) c step with
        | mk r es =>
          rw [hP] at hr
          simp only at hr
          simp only [passGo, h, if_false, hP]
          refine ⟨a :: r₀, M, by simp [hr], by simp [hrl], ?_⟩
          intro x hx
          rcases List.mem_cons.mp hx with rfl | hx'
          · omega
          · exact hmax x hx'

theorem passGo_split (c : ℕ) :
    ∀ (p s : List ℤ) (j step : ℕ), p.length = c + 1 →
      passGo (p ++ s) j c step =
        ((passGo p j c step).1 ++ s, (passGo p j c step).2) := by
  induction c with
  | zero =>
    intro p s j step hp
    simp only [passGo]
  | succ c ih =>
    intro p s j step hp
    match p, hp with
    | a :: b :: t, hp =>
      have hlen : (a :: t).length = c + 1 := by
        simpa using Nat.succ_injective (by simpa using hp)
      have hlenb : (b :: t).length = c + 1 := by simpa using hlen
      by_cases h : a > b
      · have hsp := ih (a :: t) s (j + 1) step hlen
        cases hP : passGo (a :: t) (j + 1) c step with
        | mk r es =>
          rw [hP] at hsp
          simp only at hsp
          show passGo (a :: b :: (t ++ s)) j (c + 1) step = _
          simp only [passGo, h, if_true, hP]
          rw [show a :: (t ++ s) = (a :: t) ++ s from rfl, hsp]
          simp
      · have hsp := ih (b :: t) s (j + 1) step hlenb
        cases hP : passGo (b :: t) (j + 1) c step with
        | mk r es =>
          rw [hP] at hsp
          simp only at hsp
          show passGo (a :: b :: (t ++ s)) j (c + 1) step = _
          simp only [passGo, h, if_false, hP]
          rw [show b :: (t ++ s) = (b :: t) ++ s from rfl, hsp]
          simp

theorem sorted_of_all_eq (n : ℕ) (xs : List ℕ) (h : ∀ x ∈ xs, x = n) :
    List.Sorted (· ≤ ·) xs := by
  induction xs with
  | nil => simp
  | cons a t ih =>
    rw [List.sorted_cons]
    refine ⟨fun b hb => ?_, ih fun x hx => h x (by simp [hx])⟩
    rw [h a (by simp), h b (by simp [hb])]

theorem bubbleGo_perm (r : ℕ) :
    ∀ (l : List ℤ) (i : ℕ), (bubbleGo l r i).1.Perm l := by
  induction r with
  | zero =>
    intro l i
    simp only [bubbleGo]
    exact List.Perm.refl l
  | succ r ih =>
    intro l i
    cases hP : passGo l 0 (l.length - i - 1) (i + 1) with
    | mk l₁ es₁ =>
      cases hB : bubbleGo l₁ r (i + 1) with
      | mk l₂ es₂ =>
        have h1 := passGo_perm (l.length - i - 1) l 0 (i + 1)
        rw [hP] at h1
        have h2 := ih l₁ (i + 1)
        rw [hB] at h2
        simp only [bubbleGo, hP, hB]
        exact h2.trans h1

theorem bubbleGo_events (r : ℕ) :
    ∀ (l : List ℤ) (i : ℕ),
      (∀ e ∈ (bubbleGo l r i).2,
        (e.op = "compare" ∨ e.op = "swap") ∧ i + 1 ≤ e.step) ∧
      List.Sorted (· ≤ ·) ((bubbleGo l r i).2.map BEvent.step) := by
  induction r with
  | zero =>
    intro l i
    simp only [bubbleGo]
    exact ⟨by simp, by simp⟩
  | succ r ih =>
    intro l i
    cases hP : passGo l 0 (l.length - i - 1) (i + 1) with
    | mk l₁ es₁ =>
      cases hB : bubbleGo l₁ r (i + 1) with
      | mk l₂ es₂ =>
        have h1 := passGo_events (l.length - i - 1) l 0 (i + 1)
        rw [hP] at h1
        obtain ⟨h2, h3⟩ := ih l₁ (i + 1)
        rw [hB] at h2 h3
        simp only at h1 h2 h3
        simp only [bubbleGo, hP, hB]
        constructor
        · intro e he
          rcases List.mem_append.mp he with he | he
          · obtain ⟨hst, hop⟩ := h1 e he
            exact ⟨hop, by omega⟩
          · obtain ⟨hop, hst⟩ := h2 e he
            exact ⟨hop, by omega⟩
        · rw [List.map_append]
          refine List.pairwise_append.mpr ⟨sorted_of_all_eq (i + 1) _ ?_, h3, ?_⟩
          · intro x hx
            obtain ⟨e, he, rfl⟩ := List.mem_map.mp hx
            exact (h1 e he).1
          · intro x hx y hy
            obtain ⟨e, he, rfl⟩ := List.mem_map.mp hx
            obtain ⟨f, hf, rfl⟩ := List.mem_map.mp hy
            have := (h1 e he).1
            have := (h2 f hf).2
            omega

theorem bubbleGo_replay (r : ℕ) :
    ∀ (l : List ℤ) (i : ℕ),
      applySwapEvents l
        ((bubbleGo l r i).2.filter (fun e => e.op = "swap")) =
      (bubbleGo l r i).1 := by
  induction r with
  | zero =>
    intro l i
    simp only [bubbleGo, List.filter_nil, applySwapEvents_nil]
  | succ r ih =>
    intro l i
    cases hP : passGo l 0 (l.length - i - 1) (i + 1) with
    | mk l₁ es₁ =>
      cases hB : bubbleGo l₁ r (i + 1) with
      | mk l₂ es₂ =>
        have h1 := passGo_replay (l.length - i - 1) l 0 (i + 1) [] rfl
        rw [hP] at h1
        simp only [List.nil_append] at h1
        have h2 := ih l₁ (i + 1)
        rw [hB] at h2
        simp only at h1 h2
        simp only [bubbleGo, hP, hB, List.filter_append,
          applySwapEvents_append, h1, h2]

theorem bubbleGo_sorted (r : ℕ) :
    ∀ (act sor : List ℤ) (i : ℕ), act.length = r → sor.length = i →
      List.Sorted (· ≤ ·) sor → (∀ x ∈ act, ∀ y ∈ sor, x ≤ y) →
      List.Sorted (· ≤ ·) (bubbleGo (act ++ sor) r i).1 := by
  induction r with
  | zero =>
    intro act sor i hact _hsor hs _hdom
    have : act = [] := List.length_eq_zero.mp hact
    subst this
    simp only [bubbleGo, List.nil_append]
    exact hs
  | succ r ih =>
    intro act sor i hact hsor hs hdom
    have hlen : (act ++ sor).length = r + 1 + i := by
      simp [List.length_append, hact, hsor]
    have hc : (act ++ sor).length - i - 1 = r := by omega
    have hsplit := passGo_split r act sor 0 (i + 1) hact
    obtain ⟨r₀, M, hr, hrl, hmax⟩ := passGo_max r act 0 (i + 1) hact
    have hperm := passGo_perm r act 0 (i + 1)
    rw [hr] at hperm
    have hMact : M ∈ act := hperm.mem_iff.mp (by simp)
    have hsub : ∀ x ∈ r₀, x ∈ act := fun x hx =>
      hperm.mem_iff.mp (by simp [hx])
    have hsortedCons : List.Sorted (· ≤ ·) (M :: sor) := by
      rw [List.sorted_cons]
      exact ⟨fun y hy => hdom M hMact y hy, hs⟩
    have hdom2 : ∀ x ∈ r₀, ∀ y ∈ M :: sor, x ≤ y := by
      intro x hx y hy
      rcases List.mem_cons.mp hy with rfl | hy'
      · exact hmax x hx
      · exact hdom x (hsub x hx) y hy'
    have hrec := ih r₀ (M :: sor) (i + 1) hrl (by simp [hsor]) hsortedCons hdom2
    cases hP : passGo act 0 r (i + 1) with
    | mk l₁ es₁ =>
      rw [hP] at hsplit hr
      simp only at hsplit hr
      have heq : r₀ ++ M :: sor = l₁ ++ sor := by
        rw [hr]
        simp
      rw [heq] at hrec
      cases hB : bubbleGo (l₁ ++ sor) r (i + 1) with
      | mk l₂ es₂ =>
        rw [hB] at hrec
        simp only at hrec
        simp only [bubbleGo, hc, hsplit, hB]
        exact hrec

/-- **C10.** For every IR object whose components carry integer-parsable
labels, the pre-render transformation (`expand_bubble_trace`, applied by
`render_manim_scene`) overwrites the document's `events` key with the full
bubble-sort trace of the label array: every emitted event is a `compare` or
`swap` operation, the step numbers are non-decreasing, and replaying the
`swap` events in order on the initial label array produces the trace's
final array, which is a sorted (ascending) permutation of the labels. -/
theorem expand_bubble_trace_bubble_sort_contract (fs : List (String × JVal))
    (labels : List ℤ) (hlab : extractLabels (.obj fs) = some labels) :
    render_manim_scene_ir (.obj fs) =
      some (.obj (setKey fs "events"
        (.arr ((bubbleTrace labels).2.map BEvent.toJVal)))) ∧
    jlookup (setKey fs "events"
        (.arr ((bubbleTrace labels).2.map BEvent.toJVal))) "events" =
      some (.arr ((bubbleTrace labels).2.map BEvent.toJVal)) ∧
    (∀ e ∈ (bubbleTrace labels).2, e.op = "compare" ∨ e.op = "swap") ∧
    List.Sorted (· ≤ ·) ((bubbleTrace labels).2.map BEvent.step) ∧
    applySwapEvents labels
      ((bubbleTrace labels).2.filter (fun e => e.op = "swap")) =
      (bubbleTrace labels).1 ∧
    (bubbleTrace labels).1.Perm labels ∧
    List.Sorted (· ≤ ·) (bubbleTrace labels).1 := by
  refine ⟨?_, jlookup_setKey_self fs "events" _, ?_, ?_, ?_, ?_, ?_⟩
  · simp [render_manim_scene_ir, expand_bubble_trace, hlab]
  · intro e he
    exact ((bubbleGo_events labels.length labels 0).1 e he).1
  · exact (bubbleGo_events labels.length labels 0).2
  · exact bubbleGo_replay labels.length labels 0
  · exact bubbleGo_perm labels.length labels 0
  · have h := bubbleGo_sorted labels.length labels [] 0 rfl rfl (by simp)
      (by simp)
    rw [List.append_nil] at h
    exact h

/-- Witness for C10: on the two-component document with labels `[2, 1]` and
a junk `events` field, the trace expansion applies, and the final array of
the generated trace is a sorted permutation of the labels. -/
theorem expand_bubble_trace_bubble_sort_contract_witness :
    (bubbleTrace [2, 1]).1.Perm [2, 1] ∧
    List.Sorted (· ≤ ·) (bubbleTrace [2, 1]).1 :=
  ⟨(expand_bubble_trace_bubble_sort_contract
      [("components", .arr [.obj [("label", .int 2)], .obj [("label", .int 1)]]),
       ("events", .arr [.str "junk"])] [2, 1] rfl).2.2.2.2.2.1,
   (expand_bubble_trace_bubble_sort_contract
      [("components", .arr [.obj [("label", .int 2)], .obj [("label", .int 1)]]),
       ("events", .arr [.str "junk"])] [2, 1] rfl).2.2.2.2.2.2⟩

end GenaiManim
